import Mathlib

/-! The program gozer: a command-line client for the ZeroTier network service.

A shallow embedding of `ZeroTier.go` and `gozer.go`, and the properties of the
index over the network list, the lookup, the member summaries, the composite
member resolution, the transport and the top-level loop.

Go strings are modelled by `String`: every string the program handles comes out of
the JSON decoder or the command line and is valid UTF-8, where the rune count
used by `fmt` for padding is the number of characters and the byte-wise order
of `<` is the order of the code points.
-/

namespace Gozer

/-! ## fmt.Sprintf, for the verbs the program uses -/

/-- An operand of `fmt.Sprintf`: a string, or a slice of strings. -/
inductive Arg where
  | str (s : String)
  | strs (l : List String)
deriving Repr, DecidableEq

/-- Padding on the right with spaces up to `width` characters (the `-` flag of
`fmt`); a longer text is left as it is. -/
def padRight (width : Nat) (s : List Char) : List Char :=
  s ++ List.replicate (width - s.length) ' '

/-- Padding on the left with spaces up to `width` characters. -/
def padLeft (width : Nat) (s : List Char) : List Char :=
  List.replicate (width - s.length) ' ' ++ s

/-- The default format of an operand (`%v`, and `%s` alike for these types): a
string is itself, a slice is its elements between brackets, separated by one space. -/
def Arg.text : Arg → List Char
  | .str s => s.data
  | .strs l => '[' :: (" ".intercalate l).data ++ [']']

/-- The digits of a width, read from the front of the format. -/
def readWidth : List Char → Nat → Nat × List Char
  | c :: cs, acc => if c.isDigit then readWidth cs (acc * 10 + (c.toNat - '0'.toNat)) else (acc, c :: cs)
  | [], acc => (acc, [])

/-- One pass over the format: text is copied, `%[-][width]s` and `%[-][width]v`
consume the next operand. A verb with no operand left prints `%!v(MISSING)`, as `fmt` does. -/
def sprintfAux : Nat → List Char → List Arg → List Char
  | 0, _, _ => []
  | _ + 1, [], _ => []
  | fuel + 1, '%' :: rest, args =>
    let (minus, rest1) := match rest with
      | '-' :: r => (true, r)
      | r => (false, r)
    let (width, rest2) := readWidth rest1 0
    match rest2 with
    | [] => "%!(NOVERB)".data
    | verb :: rest3 =>
      if verb = '%' then '%' :: sprintfAux fuel rest3 args
      else match args with
        | [] => ("%!".data ++ [verb] ++ "(MISSING)".data) ++ sprintfAux fuel rest3 []
        | a :: as =>
          (if minus then padRight width a.text else padLeft width a.text) ++ sprintfAux fuel rest3 as
  | fuel + 1, c :: rest, args => c :: sprintfAux fuel rest args

/-- The model of `fmt.Sprintf` for string and string-slice operands. -/
def Sprintf (format : String) (args : List Arg) : String :=
  String.mk (sprintfAux (format.length + 1) format.data args)

/-! ## The data model -/

/-- One pool of `IPAssignmentPools`. -/
structure IPAssignmentPool where
  IPRangeStart : String
  IPRangeEnd : String
deriving Repr, DecidableEq, Inhabited

/-- The configuration information for a network. -/
structure ZeroTierNetworkConfig where
  Name : String
  Private : Bool
  IPAssignmentPools : List IPAssignmentPool
deriving Repr, DecidableEq, Inhabited

/-- The most useful information about a single network. -/
structure ZeroTierNetwork where
  ID : String
  Description : String
  Config : ZeroTierNetworkConfig
deriving Repr, DecidableEq, Inhabited

/-- The anonymous `Config` struct of a member. -/
structure ZeroTierNetworkMemberConfig where
  Authorized : Bool
  ActiveBridge : Bool
  IPAssignments : List String
deriving Repr, DecidableEq, Inhabited

/-- One member of a network. -/
structure ZeroTierNetworkMember where
  NetworkID : String
  NodeID : String
  Hidden : Bool
  Name : String
  Description : String
  Online : Bool
  Config : ZeroTierNetworkMemberConfig
deriving Repr, DecidableEq, Inhabited

/-- The zero value of `ZeroTierNetwork` (`new(ZeroTierNetwork)`). -/
def ZeroTierNetwork.zero : ZeroTierNetwork := ⟨"", "", ⟨"", false, []⟩⟩

/-- The zero value of `ZeroTierNetworkMember` (`var detail ZeroTierNetworkMember`). -/
def ZeroTierNetworkMember.zero : ZeroTierNetworkMember :=
  ⟨"", "", false, "", "", false, ⟨false, false, []⟩⟩

/-! ## Presentation -/

/-- The one-line summary of a network. -/
def ZeroTierNetwork.SummaryString (network : ZeroTierNetwork) : String :=
  Sprintf "%s %s %s" [.str network.ID, .str network.Config.Name, .str network.Description]

/-- The first statement of the member summary: the formatted line, before any suffix. -/
def ZeroTierNetworkMember.summaryBase (member : ZeroTierNetworkMember) : String :=
  Sprintf "\t%-25s %s %v\t%s"
    [.str member.Name, .str member.NodeID, .strs member.Config.IPAssignments,
     .str member.Description]

/-- The one-line summary of a member, with the state suffixes. -/
def ZeroTierNetworkMember.SummaryString (member : ZeroTierNetworkMember) : String :=
  let summary := member.summaryBase
  let summary := if !member.Config.Authorized then summary ++ " Unauthorized" else summary
  let summary := if member.Config.ActiveBridge then summary ++ " Bridged" else summary
  let summary := if member.Hidden then summary ++ " Hidden" else summary
  let summary := if !member.Online then summary ++ " Offline" else summary
  summary

/-! ## Errors and the logger -/

/-- A Go `error` value: the sentinel `io.EOF`, an error made by `errors.New` (or
by a library, with its text), or an error returned by the logger. -/
inductive GoError where
  | EOF
  | text (s : String)
  | logged (cause : GoError) (message : List String)
deriving Repr, DecidableEq, Inhabited

/-- The constructor `errors.New`. -/
def errors.New (s : String) : GoError := .text s

/-- Modelled from the spec: the package-level value `logger` is used by both
source files and declared in neither. `logger.Error(err, message...)` logs and
returns an error that wraps the underlying cause and the human message (the
`RequestError` and `ServerError` of the error taxonomy). -/
def logger.Error (err : GoError) (message : List String) : GoError := .logged err message

/-- The text at the root of an error, under every wrapping by the logger. -/
def GoError.rootText : GoError → String
  | .EOF => "EOF"
  | .text s => s
  | .logged cause _ => cause.rootText

/-! ## encoding/json: the stream decoder over a response body -/

/-- A response body as the stream decoder sees it, for a destination of type `α`.
A `value` is one complete JSON value: `Decode` stores it into the destination and
returns the error of the unmarshalling, if any (a type mismatch), which the decoder
does not keep. `malformed` is input that the scanner rejects (a syntax error, an
unexpected end, a failed read): `Decode` returns the error and keeps it. -/
inductive Chunk (α : Type) where
  | value (store : α → α) (err : Option GoError)
  | malformed (err : GoError)

/-- The state of a `json.Decoder`: the input not yet consumed and the error it keeps. -/
structure Decoder (α : Type) where
  buf : List (Chunk α)
  err : Option GoError

/-- The constructor `json.NewDecoder`. -/
def json.NewDecoder {α : Type} (body : List (Chunk α)) : Decoder α := ⟨body, none⟩

/-- One call of `dec.Decode(payload)`: a kept error is returned again; at the end of
the input `io.EOF` is returned (and kept); a malformed chunk gives its error, which is
kept and the input is not advanced; a value is stored into the payload. -/
def Decoder.Decode {α : Type} (dec : Decoder α) (payload : α) :
    Decoder α × α × Option GoError :=
  match dec.err with
  | some e => (dec, payload, some e)
  | none =>
    match dec.buf with
    | [] => (⟨[], some .EOF⟩, payload, some .EOF)
    | .malformed e :: rest => (⟨.malformed e :: rest, some e⟩, payload, some e)
    | .value store err :: rest => (⟨rest, none⟩, store payload, err)

/-! ## The transport -/

def apiCmdStatus : String := "/status"
def apiCmdNetwork : String := "/network"
def apiCmdNetworkDetailFormat : String := "/network/%s"
def apiCmdNetworkMembersFormat : String := "/network/%s/member"
def apiCmdNetworkMemberDetailFormat : String := "/network/%s/member/%s"
def apiUrl : String := "https://my.zerotier.com/api"

/-- An HTTP response, as far as `getJSON` reads it. -/
structure Response (α : Type) where
  StatusCode : Int
  Status : String
  Body : List (Chunk α)

/-- What happens to one GET request: `http.NewRequest` rejects the URL, `client.Do`
fails, or a response arrives. -/
inductive Exchange (α : Type) where
  | noRequest (err : GoError)
  | failed (err : GoError)
  | response (resp : Response α)

/-- The decode loop of `getJSON`:
`for { if err := dec.Decode(payload); err == io.EOF { break } else if err != nil { logger.Error(...) } }`.
Each unit of fuel pays for one iteration; `none` means that the fuel ran out before
the `break`. An error other than `io.EOF` is logged and the loop goes on. -/
def decodeLoop {α : Type} : Nat → Decoder α → α → Option α
  | 0, _, _ => none
  | fuel + 1, dec, payload =>
    match dec.Decode payload with
    | (dec1, payload1, err) =>
      if err = some GoError.EOF then some payload1
      else decodeLoop fuel dec1 payload1

/-- The method `getJSON`. `Do` answers the request for a URL (through the embedded
`http.Client`), `MarshalIndent` is the error of `json.MarshalIndent` on the decoded
payload. The result is the payload as the decoder left it and the returned error;
`none` means that the call has not returned within the fuel. -/
def getJSON {α : Type} (fuel : Nat) (Do : String → Exchange α)
    (MarshalIndent : α → Option GoError) (cmd : String) (payload : α) :
    Option (α × Option GoError) :=
  match Do (apiUrl ++ cmd) with
  | .noRequest err => some (payload, some (logger.Error err ["Can't create request object"]))
  | .failed err => some (payload, some (logger.Error err ["HTTP request failed"]))
  | .response resp =>
    match decodeLoop fuel (json.NewDecoder resp.Body) payload with
    | none => none
    | some payload1 =>
      match MarshalIndent payload1 with
      | some err => some (payload1, some (logger.Error err ["JSON pretty print failed"]))
      | none =>
        if resp.StatusCode ≠ 200 then
          some (payload1, some (logger.Error (errors.New resp.Status) ["Request returned error "]))
        else some (payload1, none)

/-- The function `json.MarshalIndent`, as to its error, on the values this program
hands to it: structs of strings, booleans and slices of them, and what the decoder
produced. Marshalling such a value does not fail. -/
def json.MarshalIndent {α : Type} (_v : α) : Option GoError := none

/-! ## Values of type `interface{}` produced by the decoder -/

/-- A decoded JSON value held in an `interface{}`. A number keeps its text. -/
inductive JSON where
  | null
  | bool (b : Bool)
  | number (digits : String)
  | string (s : String)
  | array (l : List JSON)
  | object (m : List (String × JSON))

/-- The type `map[string]interface{}`, as a list of its entries. -/
abbrev JSONObject := List (String × JSON)

/-! ## Maps and pointers -/

/-- A Go map with string keys: its entries, each key once. -/
abbrev GoMap (β : Type) := List (String × β)

/-- The assignment `m[k] = v`: the entry of `k` is replaced, or added. -/
def GoMap.set {β : Type} (m : GoMap β) (k : String) (v : β) : GoMap β :=
  m.filter (fun e => e.1 != k) ++ [(k, v)]

/-- The lookup `v, ok := m[k]`. -/
def GoMap.get? {β : Type} (m : GoMap β) (k : String) : Option β :=
  (m.find? (fun e => e.1 == k)).map Prod.snd

/-- The keys of a map, in the order of its entries. -/
def GoMap.keys {β : Type} (m : GoMap β) : List String := m.map Prod.fst

/-- A `*ZeroTierNetwork`: the address of a variable of the store. -/
abbrev Ptr := Nat

/-- The variables of type `ZeroTierNetwork` whose address has been taken, by address. -/
abbrev Store := List ZeroTierNetwork

/-- Reading through a pointer. -/
def Store.deref (store : Store) (p : Ptr) : Option ZeroTierNetwork := store.get? p

/-- The list of networks returned by `/network`, with its two maps. -/
structure ZeroTierNetworkList where
  networks : List ZeroTierNetwork
  name_index : GoMap Ptr
  id_index : GoMap Ptr
deriving Repr, DecidableEq, Inhabited

/-- The scope of the variable of a `for ... range` loop. The sources are written for
the language as it was before Go 1.22 (no module file asks for a later version, and
they use `io/ioutil` and `interface{}`): there the loop has one variable, assigned
anew at each iteration. From Go 1.22 on each iteration has a variable of its own. -/
inductive LoopVar where
  | perLoop
  | perIteration
deriving Repr, DecidableEq

/-! ## The client -/

/-- The client: the embedded `http.Client`, seen as the answer of the service to the
request for each URL, for each of the four destination types of `getJSON`. The
service answers a URL the same way throughout one run. -/
structure ZeroTierClient where
  DoNetworks : String → Exchange (List ZeroTierNetwork)
  DoNetwork : String → Exchange ZeroTierNetwork
  DoMembers : String → Exchange (List JSONObject)
  DoMember : String → Exchange ZeroTierNetworkMember

/-- The range loop of `ListNetworks` over the remaining networks. `addr` is the
address of the loop variable in use (for `LoopVar.perLoop`, the one variable of
the loop). The state is the list with its maps, the store and the lines printed. -/
def indexLoop (loopvar : LoopVar) (print : Bool) (addr : Ptr) :
    List ZeroTierNetwork → ZeroTierNetworkList × Store × List String →
    ZeroTierNetworkList × Store × List String
  | [], state => state
  | element :: rest, (networks, store, out) =>
    -- the variable `network` of this iteration, holding a copy of the element
    let (addr1, store1) := match loopvar with
      | .perLoop => (addr, store.set addr element)
      | .perIteration => (store.length, store ++ [element])
    let networks1 := { networks with
      name_index := networks.name_index.set element.Config.Name addr1 }
    let networks2 := { networks1 with id_index := networks1.id_index.set element.ID addr1 }
    let out1 := if print then out ++ [element.SummaryString] else out
    indexLoop loopvar print addr1 rest (networks2, store1, out1)

/-- The method `ListNetworks`: the list with its maps, the store its pointers refer
to, the lines printed, and the error. -/
def ListNetworks (loopvar : LoopVar) (fuel : Nat) (client : ZeroTierClient) (print : Bool) :
    Option (ZeroTierNetworkList × Store × List String × Option GoError) :=
  let networks : ZeroTierNetworkList := ⟨[], [], []⟩
  match getJSON fuel client.DoNetworks json.MarshalIndent apiCmdNetwork networks.networks with
  | none => none
  | some (decoded, some err) =>
    some ({ networks with networks := decoded }, [], [],
      some (logger.Error err ["Network request failed"]))
  | some (decoded, none) =>
    let networks := { networks with networks := decoded, name_index := [], id_index := [] }
    -- the loop variable `network`, with its zero value before the first iteration
    let store : Store := [ZeroTierNetwork.zero]
    match indexLoop loopvar print 0 networks.networks (networks, store, []) with
    | (networks, store, out) => some (networks, store, out, none)

/-- The method `GetNetworkMembers`. -/
def GetNetworkMembers (fuel : Nat) (client : ZeroTierClient) (networkID : String) :
    Option (List JSONObject × Option GoError) :=
  getJSON fuel client.DoMembers json.MarshalIndent
    (Sprintf apiCmdNetworkMembersFormat [.str networkID]) []

/-- The method `GetNetworkDetails`. -/
def GetNetworkDetails (fuel : Nat) (client : ZeroTierClient) (networkID : String) :
    Option (ZeroTierNetwork × Option GoError) :=
  match getJSON fuel client.DoNetwork json.MarshalIndent
      (Sprintf apiCmdNetworkDetailFormat [.str networkID]) ZeroTierNetwork.zero with
  | none => none
  | some (network, some err) => some (network, some err)
  | some (network, none) => some (network, none)

/-- The method `GetMemberDetail`. -/
def GetMemberDetail (fuel : Nat) (client : ZeroTierClient) (networkId clientId : String) :
    Option (ZeroTierNetworkMember × Option GoError) :=
  match getJSON fuel client.DoMember json.MarshalIndent
      (Sprintf apiCmdNetworkMemberDetailFormat [.str networkId, .str clientId])
      ZeroTierNetworkMember.zero with
  | none => none
  | some (detail, some err) => some (detail, some (logger.Error err ["Network request failed"]))
  | some (detail, none) => some (detail, none)

/-! ## sort.Sort and byName -/

/-- The interface `sort.Interface` over a collection of type `D`. -/
structure sort.Interface (D : Type) where
  Len : D → Nat
  Less : D → Nat → Nat → Bool
  Swap : D → Nat → Nat → D

/-- The comparison `s < t` of two Go strings: lexicographic, byte by byte, which on
valid UTF-8 is the lexicographic order of the code points. -/
def stringLess (s t : String) : Bool := decide (s.data < t.data)

/-- The type `byName` with its three methods. -/
def byName : sort.Interface (List ZeroTierNetworkMember) where
  Len a := a.length
  Swap a i j :=
    (a.set i (a.getD j ZeroTierNetworkMember.zero)).set j (a.getD i ZeroTierNetworkMember.zero)
  Less a i j :=
    stringLess (a.getD i ZeroTierNetworkMember.zero).Name (a.getD j ZeroTierNetworkMember.zero).Name

/-- The library function `sort.Sort` on a slice of members, a parameter of the model. -/
abbrev SortFn :=
  sort.Interface (List ZeroTierNetworkMember) → List ZeroTierNetworkMember →
    List ZeroTierNetworkMember

/-- What the documentation of `sort.Sort` promises: the data are rearranged (by
calls of `Swap`) into ascending order as determined by `Less`. It promises no stability. -/
def SortContract (sortSort : SortFn) : Prop :=
  ∀ a : List ZeroTierNetworkMember,
    (sortSort byName a).Perm a ∧
    ∀ i j : Nat, i < j → j < (sortSort byName a).length → byName.Less (sortSort byName a) j i = false

/-! ## The composite resolution -/

/-- The expression `v["config"].(map[string]interface{})["address"].(string)`;
`none` is the run-time panic of a failed type assertion. -/
def memberAddress (v : JSONObject) : Option String :=
  match v.lookup "config" with
  | some (.object config) =>
    match config.lookup "address" with
    | some (.string id) => some id
    | _ => none
  | _ => none

/-- The first loop of `GetNetworkMemberDetails`, collecting the identifiers; `none`
is a panic. -/
def collectMemberIDs : List JSONObject → List String → Option (List String)
  | [], memberIDs => some memberIDs
  | v :: rest, memberIDs =>
    match memberAddress v with
    | none => none
    | some id => collectMemberIDs rest (memberIDs ++ [id])

/-- The second loop of `GetNetworkMemberDetails`, fetching each member; `none` means
that a fetch has not returned within the fuel. -/
def memberLoop (fuel : Nat) (client : ZeroTierClient) (networkID : String) (onlineOnly : Bool) :
    List String → List ZeroTierNetworkMember → Option (List ZeroTierNetworkMember)
  | [], members => some members
  | id :: rest, members =>
    match GetMemberDetail fuel client networkID id with
    | none => none
    | some (member, err) =>
      if onlineOnly && !member.Online then memberLoop fuel client networkID onlineOnly rest members
      else match err with
        | some _ => memberLoop fuel client networkID onlineOnly rest members
        | none =>
          match json.MarshalIndent member with
          | some _ => memberLoop fuel client networkID onlineOnly rest members
          | none => memberLoop fuel client networkID onlineOnly rest (members ++ [member])

/-- The method `GetNetworkMemberDetails`. The outer `none` means that a fetch has not
returned within the fuel, `Except.error` is a panic. -/
def GetNetworkMemberDetails (sortSort : SortFn) (fuel : Nat) (client : ZeroTierClient)
    (network : ZeroTierNetwork) (onlineOnly : Bool) :
    Option (Except String (List ZeroTierNetworkMember)) :=
  let members : List ZeroTierNetworkMember := []
  match GetNetworkMembers fuel client network.ID with
  | none => none
  | some (_, some _) => some (.ok members)
  | some (allMembers, none) =>
    match collectMemberIDs allMembers [] with
    | none => some (.error "interface conversion")
    | some memberIDs =>
      match memberLoop fuel client network.ID onlineOnly memberIDs members with
      | none => none
      | some members => some (.ok (sortSort byName members))

/-- The method `FindIDorName`; `none` is the nil pointer. -/
def ZeroTierNetworkList.FindIDorName (networks : ZeroTierNetworkList) (s : String) : Option Ptr :=
  match networks.id_index.get? s with
  | some network => some network
  | none =>
    match networks.id_index.get? s with
    | some network => some network
    | none => none

/-! ## The entry point -/

/-- The result of `ioutil.ReadFile` on the token file. -/
inductive ReadFile where
  | contents (buf : String)
  | notExist
  | failed (err : GoError)

/-- The function `strings.TrimSpace` (the token is only tested for being empty). -/
def strings.TrimSpace (s : String) : String := s.trim

/-- What `main` writes to the standard output with one call of `fmt.Println`: a line
of text, or the operands `arg, " NOT FOUND ", err`. -/
inductive Line where
  | text (s : String)
  | notFound (arg : String) (err : GoError)
deriving Repr, DecidableEq

/-- How a run of `main` ends: it returns, a logger ends the process, or it panics. -/
inductive Exit where
  | returned
  | fatal (message : String)
  | panicked (message : String)
deriving Repr, DecidableEq

/-- The command line after `flag.Parse`. -/
structure Flags where
  apiToken : String
  onlineOnly : Bool
  args : List String

/-- The lines that `main` prints for the members of one network. -/
def memberLines (members : List ZeroTierNetworkMember) : List Line :=
  members.map (fun member => Line.text ("    " ++ " " ++ member.SummaryString))

/-- The last loop of `main`, over the remaining names. -/
def inspectLoop (sortSort : SortFn) (fuel : Nat) (client : ZeroTierClient) (onlineOnly : Bool) :
    List String → List Line → Option (List Line × Exit)
  | [], out => some (out, .returned)
  | arg :: rest, out =>
    match GetNetworkDetails fuel client arg with
    | none => none
    | some (_, some err) =>
      inspectLoop sortSort fuel client onlineOnly rest (out ++ [Line.notFound arg err])
    | some (network, none) =>
      let out1 := out ++ [Line.text network.SummaryString]
      match GetNetworkMemberDetails sortSort fuel client network onlineOnly with
      | none => none
      | some (.error message) => some (out1, .panicked message)
      | some (.ok members) =>
        inspectLoop sortSort fuel client onlineOnly rest (out1 ++ memberLines members ++ [Line.text ""])

/-- The names that `main` collects before its last loop. `mapRange` is the order in
which the run time ranges over the keys of a map, which the language leaves open. -/
def networkNames (loopvar : LoopVar) (mapRange : List String → List String) (fuel : Nat)
    (client : ZeroTierClient) (args : List String) : Option (Except Exit (List String)) :=
  if args.length = 0 then
    match ListNetworks loopvar fuel client false with
    | none => none
    | some (_, _, _, some err) => some (.error (.fatal err.rootText))
    | some (networks, _, _, none) => some (.ok (mapRange networks.id_index.keys))
  else some (.ok args)

/-- The function `main`: the lines printed and the way the run ends; `none` means that
a fetch has not returned within the fuel. -/
def main (loopvar : LoopVar) (sortSort : SortFn) (mapRange : List String → List String)
    (fuel : Nat) (client : ZeroTierClient) (flags : Flags) (tokenFile : ReadFile) :
    Option (List Line × Exit) :=
  let token : Except Exit String :=
    if flags.apiToken.length = 0 then
      match tokenFile with
      | .failed _ => .error (.fatal "Cannot read")
      | .notExist => .ok flags.apiToken
      | .contents buf => .ok (strings.TrimSpace buf)
    else .ok flags.apiToken
  match token with
  | .error exit => some ([], exit)
  | .ok apiToken =>
    if apiToken.length = 0 then some ([], .fatal "No API token supplied")
    else
      match networkNames loopvar mapRange fuel client flags.args with
      | none => none
      | some (.error exit) => some ([], exit)
      | some (.ok network_names) => inspectLoop sortSort fuel client flags.onlineOnly network_names []

/-! ## The sort of the standard library on a short slice

Through Go 1.18 `sort.Sort` ends every range of at most 12 elements with one pass of
Shell sort with gap 6 followed by an insertion sort; from Go 1.19 on such a range is
sorted by the insertion sort alone. -/

/-- The inner loop of `insertionSort`:
`for j := i; j > a && data.Less(j, j-1); j-- { data.Swap(j, j-1) }`. -/
def insertionSortInner {D : Type} (data : sort.Interface D) (a : Nat) : Nat → D → D
  | 0, d => d
  | j + 1, d =>
    if j + 1 > a && data.Less d (j + 1) j then
      insertionSortInner data a j (data.Swap d (j + 1) j)
    else d

/-- The outer loop of `insertionSort`, `for i := a + 1; i < b; i++`, with `n` bounding
the iterations left. -/
def insertionSortOuter {D : Type} (data : sort.Interface D) (a b : Nat) : Nat → Nat → D → D
  | 0, _, d => d
  | n + 1, i, d =>
    if i < b then insertionSortOuter data a b n (i + 1) (insertionSortInner data a i d) else d

/-- The library function `insertionSort(data, a, b)`. -/
def insertionSort {D : Type} (data : sort.Interface D) (d : D) (a b : Nat) : D :=
  insertionSortOuter data a b (b - (a + 1)) (a + 1) d

/-- The pass of Shell sort with gap 6:
`for i := a + 6; i < b; i++ { if data.Less(i, i-6) { data.Swap(i, i-6) } }`. -/
def shellPass {D : Type} (data : sort.Interface D) (b : Nat) : Nat → Nat → D → D
  | 0, _, d => d
  | n + 1, i, d =>
    if i < b then
      shellPass data b n (i + 1) (if data.Less d i (i - 6) then data.Swap d i (i - 6) else d)
    else d

/-- The end of `quickSort(data, a, b, maxDepth)` of Go 1.6 to 1.18, which is all of it
when `b - a` is at most 12. -/
def quickSortShort {D : Type} (data : sort.Interface D) (d : D) (a b : Nat) : D :=
  if b - a > 1 then insertionSort data (shellPass data b (b - (a + 6)) (a + 6) d) a b else d

/-- The function `sort.Sort` of Go 1.6 to 1.18 on a slice of at most 12 elements
(`n := data.Len(); quickSort(data, 0, n, maxDepth(n))`). On a longer slice this is
still a sort, though not the one of the library. -/
def sortShort : SortFn := fun data d => quickSortShort data d 0 (data.Len d)

/-- The function `sort.Sort` of Go 1.19 and later on a slice of at most 12 elements
(`pdqsort` calls `insertionSort` at once). -/
def sortInsertion : SortFn := fun data d => insertionSort data d 0 (data.Len d)

/-! ## Definitions used in the statements -/

/-- The text `s` left-justified in a field of `width` characters: padded with spaces
on the right, and left whole when it is longer. -/
def leftJustify (width : Nat) (s : String) : String :=
  s ++ String.mk (List.replicate (width - s.length) ' ')

/-- The text of a slice of strings under `%v`. -/
def sliceText (l : List String) : String := "[" ++ " ".intercalate l ++ "]"

/-- The suffixes of a member summary whose condition holds, in the fixed order. -/
def stateSuffixes (member : ZeroTierNetworkMember) : List String :=
  ([(" Unauthorized", !member.Config.Authorized), (" Bridged", member.Config.ActiveBridge),
    (" Hidden", member.Hidden), (" Offline", !member.Online)].filter Prod.snd).map Prod.fst

/-- The base line of a member summary as the specification writes it, with a space
between the addresses and the tab. -/
def claimedBaseLine (member : ZeroTierNetworkMember) : String :=
  "\t" ++ leftJustify 25 member.Name ++ " " ++ member.NodeID ++ " " ++
    sliceText member.Config.IPAssignments ++ " " ++ "\t" ++ member.Description

/-- A chunk after which the decode loop goes on: a complete value whose unmarshalling
did not return `io.EOF`. -/
def Chunk.isValue {α : Type} : Chunk α → Prop
  | .value _ err => err ≠ some GoError.EOF
  | .malformed _ => False

/-- The payload after the decoder has stored every value of a body, in order. -/
def storeAll {α : Type} : List (Chunk α) → α → α
  | [], payload => payload
  | .value store _ :: rest, payload => storeAll rest (store payload)
  | .malformed _ :: _, payload => payload

/-- The member that the second loop of `GetNetworkMemberDetails` keeps for one
identifier, if it keeps one: the fetch returned no error and, with `onlineOnly`, the
member is online. -/
def keptMember (fuel : Nat) (client : ZeroTierClient) (networkID : String) (onlineOnly : Bool)
    (id : String) : Option ZeroTierNetworkMember :=
  match GetMemberDetail fuel client networkID id with
  | some (member, none) => if onlineOnly && !member.Online then none else some member
  | _ => none

/-- The fetches of one resolution return: the list of members arrives without error,
each entry carries `config.address` (the identifiers `ids`, in order), and the fetch
of each identifier returns. -/
def FetchesReturn (fuel : Nat) (client : ZeroTierClient) (networkID : String)
    (ids : List String) : Prop :=
  ∃ allMembers, GetNetworkMembers fuel client networkID = some (allMembers, none) ∧
    allMembers.map memberAddress = ids.map some ∧
    ∀ id ∈ ids, (GetMemberDetail fuel client networkID id).isSome = true

/-- Ascending order of `Name`: no member is followed by one of a smaller name. -/
def AscendingByName (members : List ZeroTierNetworkMember) : Prop :=
  members.Pairwise (fun x y => ¬ y.Name < x.Name)

/-- The lines that `main` prints for one network whose details arrived. -/
def networkBlock (network : ZeroTierNetwork) (members : List ZeroTierNetworkMember) : List Line :=
  [Line.text network.SummaryString] ++ memberLines members ++ [Line.text ""]

/-! ## Concrete services -/

/-- A body holding one JSON value that fills the whole destination. -/
def jsonBody {α : Type} (v : α) : List (Chunk α) := [Chunk.value (fun _ => v) none]

/-- A service that answers the listed URLs and refuses every other connection. -/
def serve {α : Type} (table : List (String × Response α)) : String → Exchange α :=
  fun url =>
    match table.lookup url with
    | some resp => Exchange.response resp
    | none => Exchange.failed (GoError.text "connection refused")

/-- An entry of the member list carrying the address of the member. -/
def memberEntry (address : String) : JSONObject :=
  [("config", JSON.object [("address", JSON.string address)])]

def netHome : ZeroTierNetwork := ⟨"8056c2e21c000001", "home network", ⟨"home", true, []⟩⟩

def netOffice : ZeroTierNetwork := ⟨"1d71939404912b40", "office network", ⟨"office", false, []⟩⟩

/-- An authorized member of the home network. -/
def homeMember (name node : String) (online : Bool) : ZeroTierNetworkMember :=
  ⟨"8056c2e21c000001", node, false, name, "", online, ⟨true, false, ["10.147.17.20"]⟩⟩

def memberZed : ZeroTierNetworkMember := homeMember "zed" "a1b2c3d4e5" true

def memberAmy : ZeroTierNetworkMember := homeMember "amy" "0f1e2d3c4b" false

def memberBob : ZeroTierNetworkMember := homeMember "bob" "9a8b7c6d5e" true

/-- A service with two networks. The home network has three members, listed as zed,
amy, bob: zed is online, amy is offline, and the detail of bob, who is online, comes
through a proxy with status 203. The office network has no member. -/
def homeClient : ZeroTierClient where
  DoNetworks := serve
    [("https://my.zerotier.com/api/network", ⟨200, "200 OK", jsonBody [netHome, netOffice]⟩)]
  DoNetwork := serve
    [("https://my.zerotier.com/api/network/8056c2e21c000001", ⟨200, "200 OK", jsonBody netHome⟩),
     ("https://my.zerotier.com/api/network/1d71939404912b40", ⟨200, "200 OK", jsonBody netOffice⟩)]
  DoMembers := serve
    [("https://my.zerotier.com/api/network/8056c2e21c000001/member",
        ⟨200, "200 OK", jsonBody (["a1b2c3d4e5", "0f1e2d3c4b", "9a8b7c6d5e"].map memberEntry)⟩),
     ("https://my.zerotier.com/api/network/1d71939404912b40/member", ⟨200, "200 OK", jsonBody []⟩)]
  DoMember := serve
    [("https://my.zerotier.com/api/network/8056c2e21c000001/member/a1b2c3d4e5",
        ⟨200, "200 OK", jsonBody memberZed⟩),
     ("https://my.zerotier.com/api/network/8056c2e21c000001/member/0f1e2d3c4b",
        ⟨200, "200 OK", jsonBody memberAmy⟩),
     ("https://my.zerotier.com/api/network/8056c2e21c000001/member/9a8b7c6d5e",
        ⟨203, "203 Non-Authoritative Information", jsonBody memberBob⟩)]

/-- The home service, except that the one entry of the member list of the home network
has no `config` field. -/
def shapelessClient : ZeroTierClient where
  DoNetworks := homeClient.DoNetworks
  DoNetwork := homeClient.DoNetwork
  DoMembers := serve
    [("https://my.zerotier.com/api/network/8056c2e21c000001/member",
        ⟨200, "200 OK", jsonBody [[("nodeId", JSON.string "a1b2c3d4e5")]]⟩)]
  DoMember := homeClient.DoMember

/-- The home service, except that the member list of the home network is refused. -/
def refusedClient : ZeroTierClient where
  DoNetworks := homeClient.DoNetworks
  DoNetwork := homeClient.DoNetwork
  DoMembers := serve []
  DoMember := homeClient.DoMember

/-- A home network of seven members, all online, listed as m1 to m7: two share the name
`nas`, four the name `tv`, the last is `laptop`. -/
def sevenClient : ZeroTierClient where
  DoNetworks := serve []
  DoNetwork := serve []
  DoMembers := serve
    [("https://my.zerotier.com/api/network/8056c2e21c000001/member",
      ⟨200, "200 OK", jsonBody (["m1", "m2", "m3", "m4", "m5", "m6", "m7"].map memberEntry)⟩)]
  DoMember := serve
    [("https://my.zerotier.com/api/network/8056c2e21c000001/member/m1",
        ⟨200, "200 OK", jsonBody (homeMember "nas" "m1" true)⟩),
     ("https://my.zerotier.com/api/network/8056c2e21c000001/member/m2",
        ⟨200, "200 OK", jsonBody (homeMember "nas" "m2" true)⟩),
     ("https://my.zerotier.com/api/network/8056c2e21c000001/member/m3",
        ⟨200, "200 OK", jsonBody (homeMember "tv" "m3" true)⟩),
     ("https://my.zerotier.com/api/network/8056c2e21c000001/member/m4",
        ⟨200, "200 OK", jsonBody (homeMember "tv" "m4" true)⟩),
     ("https://my.zerotier.com/api/network/8056c2e21c000001/member/m5",
        ⟨200, "200 OK", jsonBody (homeMember "tv" "m5" true)⟩),
     ("https://my.zerotier.com/api/network/8056c2e21c000001/member/m6",
        ⟨200, "200 OK", jsonBody (homeMember "tv" "m6" true)⟩),
     ("https://my.zerotier.com/api/network/8056c2e21c000001/member/m7",
        ⟨200, "200 OK", jsonBody (homeMember "laptop" "m7" true)⟩)]

/-- A gateway in front of the service that answers status 502 with a page of HTML, on
which the scanner of the decoder fails at the first character. -/
def badGateway (α : Type) : String → Exchange α :=
  fun _ => Exchange.response
    ⟨502, "502 Bad Gateway",
      [Chunk.malformed (GoError.text "invalid character '<' looking for beginning of value")]⟩

/-- A member with every state flag raising its suffix. -/
def memberFlagged : ZeroTierNetworkMember :=
  ⟨"8056c2e21c000001", "a1b2c3d4e5", true, "laptop", "my laptop", false,
    ⟨false, true, ["10.147.17.5", "10.147.17.6"]⟩⟩

/-- The name of the member at an index of a slice. -/
def nameAt (a : List ZeroTierNetworkMember) (k : Nat) : String :=
  (a.getD k ZeroTierNetworkMember.zero).Name

/-! # Theorems -/

/-! ## Presentation -/

/-- C8, as amended: the base line of a member summary is a tab, the name left-justified
in 25 characters (whole when longer), a space, the node identifier, a space, the list
of addresses, a tab and the description; no space stands between the list and the tab. -/
theorem summaryBase_layout (member : ZeroTierNetworkMember) :
    member.summaryBase =
      "\t" ++ leftJustify 25 member.Name ++ " " ++ member.NodeID ++ " " ++
        sliceText member.Config.IPAssignments ++ "\t" ++ member.Description := by
  apply String.ext
  simp [ZeroTierNetworkMember.summaryBase, Sprintf, sprintfAux, readWidth, padLeft, padRight,
    Arg.text, leftJustify, sliceText]

/-- C8, counterexample: for the flagged member the formatted line has a tab right after
the list of addresses, and differs from the line of the claim, which has a space there. -/
theorem summaryBase_not_claimed :
    memberFlagged.summaryBase =
        "\tlaptop                    a1b2c3d4e5 [10.147.17.5 10.147.17.6]\tmy laptop" ∧
      claimedBaseLine memberFlagged =
        "\tlaptop                    a1b2c3d4e5 [10.147.17.5 10.147.17.6] \tmy laptop" ∧
      memberFlagged.summaryBase ≠ claimedBaseLine memberFlagged := by
  decide

/-- C3: the summary of a member is its base line followed by exactly the suffixes
whose condition holds, in the order Unauthorized, Bridged, Hidden, Offline. -/
theorem SummaryString_suffixes (member : ZeroTierNetworkMember) :
    member.SummaryString = member.summaryBase ++ String.join (stateSuffixes member) := by
  apply String.ext
  rcases member with ⟨nid, node, hidden, name, desc, online, ⟨auth, bridge, ips⟩⟩
  cases auth <;> cases bridge <;> cases hidden <;> cases online <;>
    simp [ZeroTierNetworkMember.SummaryString, stateSuffixes, String.join]

/-- Each suffix is in the list exactly when its condition holds. -/
theorem stateSuffixes_mem (member : ZeroTierNetworkMember) :
    (" Unauthorized" ∈ stateSuffixes member ↔ member.Config.Authorized = false) ∧
    (" Bridged" ∈ stateSuffixes member ↔ member.Config.ActiveBridge = true) ∧
    (" Hidden" ∈ stateSuffixes member ↔ member.Hidden = true) ∧
    (" Offline" ∈ stateSuffixes member ↔ member.Online = false) := by
  rcases member with ⟨nid, node, hidden, name, desc, online, ⟨auth, bridge, ips⟩⟩
  cases auth <;> cases bridge <;> cases hidden <;> cases online <;>
    simp [stateSuffixes]

/-! ## The transport -/

theorem decodeLoop_kept_error {α : Type} (fuel : Nat) (buf : List (Chunk α)) (e : GoError)
    (payload : α) (he : e ≠ GoError.EOF) : decodeLoop fuel ⟨buf, some e⟩ payload = none := by
  induction fuel with
  | zero => rfl
  | succ n ih =>
    have h : some e ≠ some GoError.EOF := fun h => he (Option.some.inj h)
    simp [decodeLoop, Decoder.Decode, h, ih]

theorem decodeLoop_malformed {α : Type} (vals : List (Chunk α)) (e : GoError)
    (rest : List (Chunk α)) (hvals : ∀ c ∈ vals, c.isValue) (he : e ≠ GoError.EOF) :
    ∀ (fuel : Nat) (payload : α),
      decodeLoop fuel ⟨vals ++ Chunk.malformed e :: rest, none⟩ payload = none := by
  induction vals with
  | nil =>
    intro fuel payload
    cases fuel with
    | zero => rfl
    | succ n =>
      have h : some e ≠ some GoError.EOF := fun h => he (Option.some.inj h)
      simp [decodeLoop, Decoder.Decode, h, decodeLoop_kept_error n _ e payload he]
  | cons c vals ih =>
    intro fuel payload
    cases fuel with
    | zero => rfl
    | succ n =>
      have hc := hvals c (List.mem_cons_self _ _)
      cases c with
      | malformed e1 => exact absurd hc (by simp [Chunk.isValue])
      | value store err =>
        have herr : err ≠ some GoError.EOF := hc
        simp [decodeLoop, Decoder.Decode, herr]
        exact ih (fun c hcm => hvals c (List.mem_cons_of_mem _ hcm)) n (store payload)

theorem decodeLoop_values {α : Type} (vals : List (Chunk α)) (hvals : ∀ c ∈ vals, c.isValue) :
    ∀ (fuel : Nat) (payload : α), vals.length < fuel →
      decodeLoop fuel ⟨vals, none⟩ payload = some (storeAll vals payload) := by
  induction vals with
  | nil =>
    intro fuel payload hf
    cases fuel with
    | zero => omega
    | succ n => simp [decodeLoop, Decoder.Decode, storeAll]
  | cons c vals ih =>
    intro fuel payload hf
    cases fuel with
    | zero => omega
    | succ n =>
      have hc := hvals c (List.mem_cons_self _ _)
      cases c with
      | malformed e1 => exact absurd hc (by simp [Chunk.isValue])
      | value store err =>
        have herr : err ≠ some GoError.EOF := hc
        simp [decodeLoop, Decoder.Decode, herr, storeAll]
        exact ih (fun c hcm => hvals c (List.mem_cons_of_mem _ hcm)) n (store payload)
          (by simp at hf; omega)

/-- On a response whose body is a sequence of complete JSON values, `getJSON` returns
once the fuel exceeds the number of values, and its error depends on the status alone:
nil for status 200, otherwise an error carrying the status text, whatever the decoding
of the values reported. -/
theorem getJSON_status_after_decode {α : Type} (fuel : Nat) (Do : String → Exchange α)
    (MarshalIndent : α → Option GoError) (cmd : String) (payload : α) (resp : Response α)
    (hdo : Do (apiUrl ++ cmd) = Exchange.response resp)
    (hbody : ∀ c ∈ resp.Body, c.isValue) (hfuel : resp.Body.length < fuel)
    (hmarshal : MarshalIndent (storeAll resp.Body payload) = none) :
    getJSON fuel Do MarshalIndent cmd payload =
      some (storeAll resp.Body payload,
        if resp.StatusCode = 200 then none
        else some (logger.Error (errors.New resp.Status) ["Request returned error "])) ∧
    (resp.StatusCode ≠ 200 →
      ∃ err, getJSON fuel Do MarshalIndent cmd payload = some (storeAll resp.Body payload, some err) ∧
        err.rootText = resp.Status) := by
  have h : getJSON fuel Do MarshalIndent cmd payload =
      some (storeAll resp.Body payload,
        if resp.StatusCode = 200 then none
        else some (logger.Error (errors.New resp.Status) ["Request returned error "])) := by
    unfold getJSON
    rw [hdo]
    simp only [json.NewDecoder]
    rw [decodeLoop_values resp.Body hbody fuel payload hfuel]
    simp only [hmarshal]
    by_cases hs : resp.StatusCode = 200 <;> simp [hs]
  refine ⟨h, fun hs => ⟨logger.Error (errors.New resp.Status) ["Request returned error "], ?_, ?_⟩⟩
  · rw [h]; simp [hs]
  · simp [logger.Error, errors.New, GoError.rootText]

theorem getJSON_malformed {α : Type} (Do : String → Exchange α)
    (MarshalIndent : α → Option GoError) (cmd : String) (payload : α) (resp : Response α)
    (vals rest : List (Chunk α)) (e : GoError)
    (hdo : Do (apiUrl ++ cmd) = Exchange.response resp)
    (hbody : resp.Body = vals ++ Chunk.malformed e :: rest)
    (hvals : ∀ c ∈ vals, c.isValue) (he : e ≠ GoError.EOF) (fuel : Nat) :
    getJSON fuel Do MarshalIndent cmd payload = none := by
  unfold getJSON
  rw [hdo]
  simp only [json.NewDecoder, hbody]
  rw [decodeLoop_malformed vals e rest hvals he fuel payload]

/-- C10, the defect: when the body of the response has malformed input after any number
of complete values, the decoder reports its error (not end-of-input) on every later
call, the decode loop logs it and goes on, and `getJSON` returns for no amount of fuel. -/
theorem getJSON_never_returns_on_malformed_body {α : Type} (Do : String → Exchange α)
    (MarshalIndent : α → Option GoError) (cmd : String) (payload : α) (resp : Response α)
    (vals rest : List (Chunk α)) (e : GoError)
    (hdo : Do (apiUrl ++ cmd) = Exchange.response resp)
    (hbody : resp.Body = vals ++ Chunk.malformed e :: rest)
    (hvals : ∀ c ∈ vals, c.isValue) (he : e ≠ GoError.EOF) :
    ∀ fuel : Nat, getJSON fuel Do MarshalIndent cmd payload = none :=
  fun fuel => getJSON_malformed Do MarshalIndent cmd payload resp vals rest e hdo hbody hvals he fuel

/-- C10, witness: a body of one network followed by a stray character, and fuel for a
million iterations. -/
theorem getJSON_never_returns_on_malformed_body_witness :
    getJSON 1000000
      (fun _ => Exchange.response
        ⟨200, "200 OK", [Chunk.value (fun _ => netHome) none,
          Chunk.malformed (GoError.text "invalid character 'x' looking for beginning of value")]⟩)
      json.MarshalIndent "/network/8056c2e21c000001" ZeroTierNetwork.zero = none :=
  getJSON_never_returns_on_malformed_body _ json.MarshalIndent "/network/8056c2e21c000001"
    ZeroTierNetwork.zero
    ⟨200, "200 OK", [Chunk.value (fun _ => netHome) none,
      Chunk.malformed (GoError.text "invalid character 'x' looking for beginning of value")]⟩
    [Chunk.value (fun _ => netHome) none] []
    (GoError.text "invalid character 'x' looking for beginning of value") rfl rfl
    (by intro c hc; simp at hc; subst hc; simp [Chunk.isValue]) (by simp) 1000000

/-- C6, the failing input: to a response with status 502 and a page of HTML as body,
`getJSON` returns nothing, for any amount of fuel; no error carrying the status text
comes back. -/
theorem getJSON_bad_gateway_never_returns :
    ∀ fuel : Nat,
      getJSON fuel (badGateway (List ZeroTierNetwork)) json.MarshalIndent apiCmdNetwork [] = none :=
  fun fuel => getJSON_malformed (badGateway (List ZeroTierNetwork)) json.MarshalIndent apiCmdNetwork []
    ⟨502, "502 Bad Gateway",
      [Chunk.malformed (GoError.text "invalid character '<' looking for beginning of value")]⟩
    [] [] (GoError.text "invalid character '<' looking for beginning of value") rfl rfl
    (by simp) (by simp) fuel

/-! ## The index over the list of networks -/

theorem GoMap.get?_set {β : Type} (m : GoMap β) (k k1 : String) (v : β) :
    (m.set k v).get? k1 = if k1 = k then some v else m.get? k1 := by
  unfold GoMap.set GoMap.get?
  by_cases h : k1 = k
  · subst h
    simp [List.find?_append, List.find?_filter]
  · have hk : ¬ k = k1 := fun hk => h hk.symm
    have hp : (fun a : String × β => !decide (a.1 = k) && decide (a.1 = k1)) =
        (fun e => e.1 == k1) := by
      funext a
      by_cases ha : a.1 = k1
      · simp [ha, h]
      · simp [ha]
    simp [h, hk, List.find?_append, List.find?_filter, hp]

theorem GoMap.keys_set {β : Type} (m : GoMap β) (k : String) (v : β) (h : k ∉ m.keys) :
    (m.set k v).keys = m.keys ++ [k] := by
  unfold GoMap.set GoMap.keys at *
  have hf : m.filter (fun e => e.1 != k) = m := by
    apply List.filter_eq_self.mpr
    intro a ha
    have : a.1 ≠ k := fun hak => h (hak ▸ List.mem_map_of_mem Prod.fst ha)
    simp [this]
  simp [hf]

theorem GoMap.mem_set {β : Type} (m : GoMap β) (k : String) (v : β) (e : String × β)
    (he : e ∈ m.set k v) : e ∈ m ∨ e = (k, v) := by
  unfold GoMap.set at he
  rcases List.mem_append.mp he with h | h
  · exact Or.inl (List.mem_filter.mp h).1
  · exact Or.inr (by simpa using h)

theorem GoMap.get?_mem {β : Type} (m : GoMap β) (k : String) (v : β)
    (h : m.get? k = some v) : (k, v) ∈ m := by
  unfold GoMap.get? at h
  rcases hf : m.find? (fun e => e.1 == k) with _ | e
  · simp [hf] at h
  · simp [hf] at h
    have hk := List.find?_some hf
    have hm := List.mem_of_find?_eq_some hf
    simp at hk
    rw [← hk, ← h]
    exact hm

theorem GoMap.get?_isSome_of_key {β : Type} (m : GoMap β) (k : String) (h : k ∈ m.keys) :
    ∃ v, m.get? k = some v := by
  unfold GoMap.keys at h
  rcases List.mem_map.mp h with ⟨e, he, hk⟩
  unfold GoMap.get?
  rcases hf : m.find? (fun e => e.1 == k) with _ | e1
  · have := List.find?_eq_none.mp hf e he
    simp [hk] at this
  · exact ⟨e1.2, by simp [hf]⟩

theorem indexLoop_networks (loopvar : LoopVar) (print : Bool) :
    ∀ (l : List ZeroTierNetwork) (addr : Ptr) (nl : ZeroTierNetworkList) (store : Store)
      (out : List String),
      (indexLoop loopvar print addr l (nl, store, out)).1.networks = nl.networks := by
  intro l
  induction l with
  | nil => intros; rfl
  | cons e rest ih =>
    intro addr nl store out
    cases loopvar <;> simp only [indexLoop] <;> rw [ih]

/-- With pairwise distinct identifiers the keys of `id_index` are the identifiers of the
list, each once. -/
theorem indexLoop_id_keys (loopvar : LoopVar) (print : Bool) :
    ∀ (l : List ZeroTierNetwork) (addr : Ptr) (nl : ZeroTierNetworkList) (store : Store)
      (out : List String), (nl.id_index.keys ++ l.map (fun n => n.ID)).Nodup →
      (indexLoop loopvar print addr l (nl, store, out)).1.id_index.keys =
        nl.id_index.keys ++ l.map (fun n => n.ID) := by
  intro l
  induction l with
  | nil => intros; simp [indexLoop]
  | cons e rest ih =>
    intro addr nl store out hnd
    have hnot : e.ID ∉ nl.id_index.keys := by
      intro hmem
      have := List.nodup_append.mp hnd
      exact this.2.2 hmem (List.mem_cons_self _ _)
    cases loopvar <;> simp only [indexLoop] <;> rw [ih] <;>
      simp [GoMap.keys_set _ _ _ hnot] <;> simpa using hnd

/-- With pairwise distinct names the keys of `name_index` are the names of the list,
each once. -/
theorem indexLoop_name_keys (loopvar : LoopVar) (print : Bool) :
    ∀ (l : List ZeroTierNetwork) (addr : Ptr) (nl : ZeroTierNetworkList) (store : Store)
      (out : List String), (nl.name_index.keys ++ l.map (fun n => n.Config.Name)).Nodup →
      (indexLoop loopvar print addr l (nl, store, out)).1.name_index.keys =
        nl.name_index.keys ++ l.map (fun n => n.Config.Name) := by
  intro l
  induction l with
  | nil => intros; simp [indexLoop]
  | cons e rest ih =>
    intro addr nl store out hnd
    have hnot : e.Config.Name ∉ nl.name_index.keys := by
      intro hmem
      have := List.nodup_append.mp hnd
      exact this.2.2 hmem (List.mem_cons_self _ _)
    cases loopvar <;> simp only [indexLoop] <;> rw [ih] <;>
      simp [GoMap.keys_set _ _ _ hnot] <;> simpa using hnd

/-- What `ListNetworks` returns without error: the maps and the store are those of the
loop over the decoded list. -/
theorem ListNetworks_eq (loopvar : LoopVar) (fuel : Nat) (client : ZeroTierClient) (print : Bool)
    (networks : ZeroTierNetworkList) (store : Store) (out : List String)
    (h : ListNetworks loopvar fuel client print = some (networks, store, out, none)) :
    (networks, store, out) =
      indexLoop loopvar print 0 networks.networks
        (⟨networks.networks, [], []⟩, [ZeroTierNetwork.zero], []) := by
  unfold ListNetworks at h
  rcases hg : getJSON fuel client.DoNetworks json.MarshalIndent apiCmdNetwork [] with _ | ⟨decoded, err⟩
  · simp [hg] at h
  · cases err with
    | some e => simp [hg] at h
    | none =>
      simp only [hg] at h
      have h1 := Option.some.inj h
      have hn : networks.networks = decoded := by
        have := congrArg (fun r => r.1.networks) h1
        simp only [indexLoop_networks] at this
        exact this.symm
      rw [hn]
      have h2 : (networks, store, out, (none : Option GoError)) =
          ((indexLoop loopvar print 0 decoded (⟨decoded, [], []⟩, [ZeroTierNetwork.zero], [])).1,
           (indexLoop loopvar print 0 decoded (⟨decoded, [], []⟩, [ZeroTierNetwork.zero], [])).2.1,
           (indexLoop loopvar print 0 decoded (⟨decoded, [], []⟩, [ZeroTierNetwork.zero], [])).2.2,
           none) := h1.symm
      injection h2 with ha hb
      injection hb with hb hc
      injection hc with hc hd
      rw [ha, hb, hc]

theorem GoMap.keys_set_mono {β : Type} (m : GoMap β) (k k1 : String) (v : β)
    (h : k1 ∈ m.keys ∨ k1 = k) : k1 ∈ (m.set k v).keys := by
  unfold GoMap.set GoMap.keys at *
  by_cases hk : k1 = k
  · subst hk; simp
  · rcases h with h | h
    · rcases List.mem_map.mp h with ⟨e, he, hek⟩
      apply List.mem_map.mpr
      refine ⟨e, List.mem_append_left _ (List.mem_filter.mpr ⟨he, ?_⟩), hek⟩
      simp [hek, hk]
    · exact absurd h hk

/-- Every identifier and every name of the list is a key of its map. -/
theorem indexLoop_keys_mem (loopvar : LoopVar) (print : Bool) :
    ∀ (l : List ZeroTierNetwork) (addr : Ptr) (nl : ZeroTierNetworkList) (store : Store)
      (out : List String),
      (∀ k, (k ∈ nl.id_index.keys ∨ k ∈ l.map (fun n => n.ID)) →
        k ∈ (indexLoop loopvar print addr l (nl, store, out)).1.id_index.keys) ∧
      (∀ k, (k ∈ nl.name_index.keys ∨ k ∈ l.map (fun n => n.Config.Name)) →
        k ∈ (indexLoop loopvar print addr l (nl, store, out)).1.name_index.keys) := by
  intro l
  induction l with
  | nil => intro addr nl store out; simp [indexLoop]
  | cons e rest ih =>
    intro addr nl store out
    constructor
    · intro k hk
      cases loopvar <;> simp only [indexLoop] <;> apply (ih _ _ _ _).1 <;>
        · rcases hk with hk | hk
          · exact Or.inl (GoMap.keys_set_mono _ _ _ _ (Or.inl hk))
          · rcases List.mem_cons.mp hk with hk | hk
            · exact Or.inl (GoMap.keys_set_mono _ _ _ _ (Or.inr hk))
            · exact Or.inr hk
    · intro k hk
      cases loopvar <;> simp only [indexLoop] <;> apply (ih _ _ _ _).2 <;>
        · rcases hk with hk | hk
          · exact Or.inl (GoMap.keys_set_mono _ _ _ _ (Or.inl hk))
          · rcases List.mem_cons.mp hk with hk | hk
            · exact Or.inl (GoMap.keys_set_mono _ _ _ _ (Or.inr hk))
            · exact Or.inr hk

/-- With one variable for the whole loop, every entry of both maps is the address of
that variable. -/
theorem indexLoop_perLoop_entries (print : Bool) :
    ∀ (l : List ZeroTierNetwork) (addr : Ptr) (nl : ZeroTierNetworkList) (store : Store)
      (out : List String), (∀ e ∈ nl.id_index, e.2 = addr) → (∀ e ∈ nl.name_index, e.2 = addr) →
      (∀ e ∈ (indexLoop LoopVar.perLoop print addr l (nl, store, out)).1.id_index, e.2 = addr) ∧
      (∀ e ∈ (indexLoop LoopVar.perLoop print addr l (nl, store, out)).1.name_index, e.2 = addr) := by
  intro l
  induction l with
  | nil => intro addr nl store out h1 h2; exact ⟨h1, h2⟩
  | cons e rest ih =>
    intro addr nl store out h1 h2
    simp only [indexLoop]
    apply ih
    · intro x hx
      rcases GoMap.mem_set _ _ _ _ hx with h | h
      · exact h1 x h
      · rw [h]
    · intro x hx
      rcases GoMap.mem_set _ _ _ _ hx with h | h
      · exact h2 x h
      · rw [h]

/-- With one variable for the whole loop, that variable holds the last network of the
list when the loop is over. -/
theorem indexLoop_perLoop_store (print : Bool) :
    ∀ (l : List ZeroTierNetwork) (addr : Ptr) (nl : ZeroTierNetworkList) (store : Store)
      (out : List String), addr < store.length → l ≠ [] →
      (indexLoop LoopVar.perLoop print addr l (nl, store, out)).2.1.deref addr = l.getLast? := by
  intro l
  induction l with
  | nil => intro addr nl store out _ h; exact absurd rfl h
  | cons e rest ih =>
    intro addr nl store out haddr _
    simp only [indexLoop]
    cases rest with
    | nil => simp [indexLoop, Store.deref, List.getElem?_set, haddr]
    | cons e1 rest1 =>
      rw [ih addr _ _ _ (by simpa using haddr) (by simp)]
      simp [List.getLast?_cons_cons]

/-- Before Go 1.22: whatever list `ListNetworks` returns, every entry of `id_index`
and of `name_index` refers to the last network of the list. -/
theorem ListNetworks_perLoop_last (fuel : Nat) (client : ZeroTierClient) (print : Bool)
    (networks : ZeroTierNetworkList) (store : Store) (out : List String)
    (h : ListNetworks LoopVar.perLoop fuel client print = some (networks, store, out, none)) :
    ∀ n ∈ networks.networks,
      (networks.id_index.get? n.ID).bind store.deref = networks.networks.getLast? ∧
      (networks.name_index.get? n.Config.Name).bind store.deref = networks.networks.getLast? := by
  intro n hn
  have heq := ListNetworks_eq _ fuel client print networks store out h
  have hne : networks.networks ≠ [] := List.ne_nil_of_mem hn
  have hstore := indexLoop_perLoop_store print networks.networks 0
    ⟨networks.networks, [], []⟩ [ZeroTierNetwork.zero] [] (by simp) hne
  have hent := indexLoop_perLoop_entries print networks.networks 0
    ⟨networks.networks, [], []⟩ [ZeroTierNetwork.zero] [] (by simp) (by simp)
  have hkeys := indexLoop_keys_mem LoopVar.perLoop print networks.networks 0
    ⟨networks.networks, [], []⟩ [ZeroTierNetwork.zero] []
  rw [← heq] at hstore hent hkeys
  simp only at hstore hent hkeys
  constructor
  · rcases GoMap.get?_isSome_of_key _ _
      (hkeys.1 n.ID (Or.inr (List.mem_map_of_mem (fun n => n.ID) hn))) with ⟨p, hp⟩
    have := hent.1 _ (GoMap.get?_mem _ _ _ hp)
    simp only at this
    rw [hp, this]
    exact hstore
  · rcases GoMap.get?_isSome_of_key _ _
      (hkeys.2 n.Config.Name (Or.inr (List.mem_map_of_mem (fun n => n.Config.Name) hn))) with ⟨p, hp⟩
    have := hent.2 _ (GoMap.get?_mem _ _ _ hp)
    simp only at this
    rw [hp, this]
    exact hstore

/-- Each index has one entry for each network of a list with pairwise distinct
identifiers and pairwise distinct names, under either scope of the loop variable. -/
theorem ListNetworks_index_keys (loopvar : LoopVar) (fuel : Nat) (client : ZeroTierClient)
    (print : Bool) (networks : ZeroTierNetworkList) (store : Store) (out : List String)
    (h : ListNetworks loopvar fuel client print = some (networks, store, out, none)) :
    ((networks.networks.map (fun n => n.ID)).Nodup →
      networks.id_index.keys = networks.networks.map (fun n => n.ID)) ∧
    ((networks.networks.map (fun n => n.Config.Name)).Nodup →
      networks.name_index.keys = networks.networks.map (fun n => n.Config.Name)) := by
  have heq := ListNetworks_eq _ fuel client print networks store out h
  constructor
  · intro hnd
    have := indexLoop_id_keys loopvar print networks.networks 0
      ⟨networks.networks, [], []⟩ [ZeroTierNetwork.zero] [] (by simpa [GoMap.keys] using hnd)
    rw [← heq] at this
    simpa [GoMap.keys] using this
  · intro hnd
    have := indexLoop_name_keys loopvar print networks.networks 0
      ⟨networks.networks, [], []⟩ [ZeroTierNetwork.zero] [] (by simpa [GoMap.keys] using hnd)
    rw [← heq] at this
    simpa [GoMap.keys] using this

/-- C1, the failing input: the service lists the home network and the office network.
`ListNetworks` returns this list, and the entries of the home network in `id_index` and
in `name_index` refer to the variable of the loop, which holds the office network. -/
theorem ListNetworks_index_aliases_loop_variable :
    ∃ networks store out,
      ListNetworks LoopVar.perLoop 2 homeClient false = some (networks, store, out, none) ∧
      networks.networks = [netHome, netOffice] ∧
      (networks.id_index.get? netHome.ID).bind store.deref = some netOffice ∧
      (networks.name_index.get? netHome.Config.Name).bind store.deref = some netOffice ∧
      netOffice ≠ netHome :=
  ⟨_, _, _, rfl, rfl, rfl, rfl, by decide⟩

/-- The method `FindIDorName` reads `id_index` only. -/
theorem FindIDorName_eq (networks : ZeroTierNetworkList) (s : String) :
    networks.FindIDorName s = networks.id_index.get? s := by
  unfold ZeroTierNetworkList.FindIDorName
  cases networks.id_index.get? s <;> rfl

/-- C2, the failing input: in the list of the home and the office network, the name
`home` is a key of `name_index`, and `FindIDorName` returns nil for it, under either
scope of the loop variable. -/
theorem FindIDorName_by_name_is_nil :
    ∀ loopvar : LoopVar, ∃ networks store out,
      ListNetworks loopvar 2 homeClient false = some (networks, store, out, none) ∧
      netHome ∈ networks.networks ∧
      networks.name_index.get? netHome.Config.Name ≠ none ∧
      networks.FindIDorName netHome.Config.Name = none := by
  intro loopvar
  cases loopvar
  · exact ⟨_, _, _, rfl, by decide, by decide, rfl⟩
  · exact ⟨_, _, _, rfl, by decide, by decide, rfl⟩

/-- With a variable for each iteration, every entry of a map refers to a network of
the list that has the key of the entry. -/
theorem indexLoop_perIteration_entries (print : Bool) :
    ∀ (l S : List ZeroTierNetwork) (addr : Ptr) (nl : ZeroTierNetworkList) (store : Store)
      (out : List String),
      (∀ e ∈ nl.id_index, ∃ n ∈ S, store.deref e.2 = some n ∧ n.ID = e.1) →
      (∀ e ∈ nl.name_index, ∃ n ∈ S, store.deref e.2 = some n ∧ n.Config.Name = e.1) →
      (∀ e ∈ (indexLoop LoopVar.perIteration print addr l (nl, store, out)).1.id_index,
        ∃ n ∈ S ++ l,
          (indexLoop LoopVar.perIteration print addr l (nl, store, out)).2.1.deref e.2 = some n ∧
          n.ID = e.1) ∧
      (∀ e ∈ (indexLoop LoopVar.perIteration print addr l (nl, store, out)).1.name_index,
        ∃ n ∈ S ++ l,
          (indexLoop LoopVar.perIteration print addr l (nl, store, out)).2.1.deref e.2 = some n ∧
          n.Config.Name = e.1) := by
  intro l
  induction l with
  | nil =>
    intro S addr nl store out h1 h2
    simp only [indexLoop, List.append_nil]
    exact ⟨h1, h2⟩
  | cons e rest ih =>
    intro S addr nl store out h1 h2
    simp only [indexLoop]
    have hold : ∀ (p : Ptr) (n : ZeroTierNetwork), store.deref p = some n →
        Store.deref (store ++ [e]) p = some n := by
      intro p n hp
      unfold Store.deref at *
      have hlt : p < store.length := by
        rcases Nat.lt_or_ge p store.length with h | h
        · exact h
        · rw [List.get?_eq_none.mpr h] at hp; cases hp
      simpa [List.getElem?_append_left hlt] using hp
    have hnew : Store.deref (store ++ [e]) store.length = some e := by
      simp [Store.deref]
    have := ih (S ++ [e]) store.length
      { networks := nl.networks, name_index := nl.name_index.set e.Config.Name store.length,
        id_index := nl.id_index.set e.ID store.length }
      (store ++ [e]) (if print then out ++ [e.SummaryString] else out)
      (by
        intro x hx
        rcases GoMap.mem_set _ _ _ _ hx with h | h
        · rcases h1 x h with ⟨n, hn, hd, hk⟩
          exact ⟨n, List.mem_append_left _ hn, hold _ _ hd, hk⟩
        · subst h
          exact ⟨e, by simp, hnew, rfl⟩)
      (by
        intro x hx
        rcases GoMap.mem_set _ _ _ _ hx with h | h
        · rcases h2 x h with ⟨n, hn, hd, hk⟩
          exact ⟨n, List.mem_append_left _ hn, hold _ _ hd, hk⟩
        · subst h
          exact ⟨e, by simp, hnew, rfl⟩)
    simpa using this

/-- From Go 1.22 on: for a list with pairwise distinct identifiers and pairwise distinct
names, the entry of each network in either map refers to a network equal to it. -/
theorem ListNetworks_perIteration_sound (fuel : Nat) (client : ZeroTierClient) (print : Bool)
    (networks : ZeroTierNetworkList) (store : Store) (out : List String)
    (h : ListNetworks LoopVar.perIteration fuel client print = some (networks, store, out, none))
    (hid : (networks.networks.map (fun n => n.ID)).Nodup)
    (hname : (networks.networks.map (fun n => n.Config.Name)).Nodup) :
    ∀ n ∈ networks.networks,
      (networks.id_index.get? n.ID).bind store.deref = some n ∧
      (networks.name_index.get? n.Config.Name).bind store.deref = some n := by
  intro n hn
  have heq := ListNetworks_eq _ fuel client print networks store out h
  have hent := indexLoop_perIteration_entries print networks.networks [] 0
    ⟨networks.networks, [], []⟩ [ZeroTierNetwork.zero] [] (by simp) (by simp)
  have hkeys := indexLoop_keys_mem LoopVar.perIteration print networks.networks 0
    ⟨networks.networks, [], []⟩ [ZeroTierNetwork.zero] []
  rw [← heq] at hent hkeys
  simp only [List.nil_append] at hent hkeys
  constructor
  · rcases GoMap.get?_isSome_of_key _ _
      (hkeys.1 n.ID (Or.inr (List.mem_map_of_mem (fun n => n.ID) hn))) with ⟨p, hp⟩
    rcases hent.1 _ (GoMap.get?_mem _ _ _ hp) with ⟨n1, hn1, hd, hk⟩
    have : n1 = n := List.inj_on_of_nodup_map hid hn1 hn hk
    rw [hp, ← this]
    exact hd
  · rcases GoMap.get?_isSome_of_key _ _
      (hkeys.2 n.Config.Name (Or.inr (List.mem_map_of_mem (fun n => n.Config.Name) hn))) with ⟨p, hp⟩
    rcases hent.2 _ (GoMap.get?_mem _ _ _ hp) with ⟨n1, hn1, hd, hk⟩
    have : n1 = n := List.inj_on_of_nodup_map hname hn1 hn hk
    rw [hp, ← this]
    exact hd

/-! ## The sort of the library on a slice of members -/

theorem stringLess_iff (s t : String) : stringLess s t = true ↔ s < t := by
  unfold stringLess
  rw [decide_eq_true_iff]
  exact String.lt_iff_toList_lt.symm

theorem byName_Less_iff (a : List ZeroTierNetworkMember) (i j : Nat) :
    byName.Less a i j = true ↔ nameAt a i < nameAt a j :=
  stringLess_iff _ _

theorem byName_Swap_length (a : List ZeroTierNetworkMember) (i j : Nat) :
    (byName.Swap a i j).length = a.length := by
  simp [byName]

theorem byName_Swap_getD (a : List ZeroTierNetworkMember) (i j k : Nat)
    (hi : i < a.length) (hj : j < a.length) :
    (byName.Swap a i j).getD k ZeroTierNetworkMember.zero =
      if k = j then a.getD i ZeroTierNetworkMember.zero
      else if k = i then a.getD j ZeroTierNetworkMember.zero
      else a.getD k ZeroTierNetworkMember.zero := by
  simp only [byName, List.getD_eq_getElem?_getD, List.getElem?_set]
  by_cases h1 : k = j
  · subst h1
    simp [hj]
  · by_cases h2 : k = i
    · subst h2
      have : ¬ j = k := fun h => h1 h.symm
      simp [this, hi, h1]
    · have h3 : ¬ j = k := fun h => h1 h.symm
      have h4 : ¬ i = k := fun h => h2 h.symm
      simp [h1, h2, h3, h4]

theorem byName_Swap_perm (a : List ZeroTierNetworkMember) (i j : Nat)
    (hi : i < a.length) (hj : j < a.length) : (byName.Swap a i j).Perm a := by
  have h : byName.Swap a i j =
      List.ofFn (a.get ∘ (Equiv.swap (⟨i, hi⟩ : Fin a.length) ⟨j, hj⟩)) := by
    apply List.ext_getElem
    · simp [byName]
    · intro k h1 h2
      have hk : k < a.length := by simpa [byName] using h1
      have hg := byName_Swap_getD a i j k hi hj
      have hgd : ∀ (n : Nat) (h : n < a.length), a[n]?.getD ZeroTierNetworkMember.zero = a[n] := by
        intro n h
        simp [List.getElem?_eq_getElem h]
      rw [List.getD_eq_getElem _ _ h1] at hg
      rw [hg]
      simp only [List.getElem_ofFn, Function.comp, List.get_eq_getElem]
      by_cases c1 : k = j
      · subst c1
        simp [Equiv.swap_apply_right]
        exact hgd _ _
      · by_cases c2 : k = i
        · subst c2
          simp [c1, Equiv.swap_apply_left]
          exact hgd _ _
        · have e1 : (⟨k, hk⟩ : Fin a.length) ≠ ⟨i, hi⟩ := fun h => c2 (Fin.mk.inj_iff.mp h)
          have e2 : (⟨k, hk⟩ : Fin a.length) ≠ ⟨j, hj⟩ := fun h => c1 (Fin.mk.inj_iff.mp h)
          simp [c1, c2, Equiv.swap_apply_of_ne_of_ne e1 e2]
          exact hgd _ _
  rw [h]
  have := Equiv.Perm.ofFn_comp_perm (Equiv.swap (⟨i, hi⟩ : Fin a.length) ⟨j, hj⟩) a.get
  simpa using this


theorem nameAt_Swap (a : List ZeroTierNetworkMember) (i j k : Nat)
    (hi : i < a.length) (hj : j < a.length) :
    nameAt (byName.Swap a i j) k =
      if k = j then nameAt a i else if k = i then nameAt a j else nameAt a k := by
  unfold nameAt
  rw [byName_Swap_getD a i j k hi hj]
  by_cases h1 : k = j
  · simp [h1]
  · by_cases h2 : k = i
    · subst h2
      simp [h1]
    · simp [h1, h2]

/-- The inner loop of the insertion sort: when the slice up to `i` is in order except
for the element at `j`, which is not above the ones after it, the loop leaves the slice
up to `i` in order. -/
theorem insertionSortInner_spec :
    ∀ (j : Nat) (a : List ZeroTierNetworkMember) (i : Nat), i < a.length → j ≤ i →
      (∀ p q, p < q → q ≤ i → p ≠ j → q ≠ j → nameAt a p ≤ nameAt a q) →
      (∀ q, j < q → q ≤ i → nameAt a j ≤ nameAt a q) →
      (insertionSortInner byName 0 j a).length = a.length ∧
      (insertionSortInner byName 0 j a).Perm a ∧
      ∀ p q, p < q → q ≤ i →
        nameAt (insertionSortInner byName 0 j a) p ≤ nameAt (insertionSortInner byName 0 j a) q := by
  intro j
  induction j with
  | zero =>
    intro a i _ _ h1 h2
    refine ⟨rfl, List.Perm.refl _, ?_⟩
    intro p q hpq hq
    simp only [insertionSortInner]
    by_cases hp : p = 0
    · subst hp
      exact h2 q hpq hq
    · exact h1 p q hpq hq hp (by omega)
  | succ j ih =>
    intro a i hi hj h1 h2
    simp only [insertionSortInner]
    by_cases hless : byName.Less a (j + 1) j = true
    · have hlt : nameAt a (j + 1) < nameAt a j := (byName_Less_iff a (j + 1) j).mp hless
      have hj1 : j + 1 < a.length := by omega
      have hj0 : j < a.length := by omega
      have hlen : (byName.Swap a (j + 1) j).length = a.length := byName_Swap_length a (j + 1) j
      have hnm : ∀ k, nameAt (byName.Swap a (j + 1) j) k =
          if k = j then nameAt a (j + 1) else if k = j + 1 then nameAt a j else nameAt a k :=
        fun k => nameAt_Swap a (j + 1) j k hj1 hj0
      have := ih (byName.Swap a (j + 1) j) i (by omega) (by omega)
        (by
          intro p q hpq hq hp hqj
          rw [hnm p, hnm q]
          simp only [hp, hqj, if_false]
          by_cases c1 : p = j + 1
          · by_cases c2 : q = j + 1
            · omega
            · simp only [c1, c2, if_true, if_false]
              exact h1 j q (by omega) hq (by omega) c2
          · by_cases c2 : q = j + 1
            · simp only [c1, c2, if_true, if_false]
              exact h1 p j (by omega) (by omega) c1 (by omega)
            · simp only [c1, c2, if_false]
              exact h1 p q hpq hq c1 c2)
        (by
          intro q hjq hq
          rw [hnm j, hnm q]
          have c0 : ¬ q = j := by omega
          simp only [c0, if_true, if_false]
          by_cases c2 : q = j + 1
          · simp only [c2, if_true]
            exact le_of_lt hlt
          · simp only [c2, if_false]
            exact h2 q (by omega) hq)
      simp only [hless, Nat.succ_pos, gt_iff_lt, Nat.zero_lt_succ, decide_True, Bool.and_self,
        if_true]
      refine ⟨this.1.trans hlen, this.2.1.trans (byName_Swap_perm a (j + 1) j hj1 hj0), this.2.2⟩
    · have hge : nameAt a j ≤ nameAt a (j + 1) := by
        have : ¬ nameAt a (j + 1) < nameAt a j := fun h => hless ((byName_Less_iff a (j + 1) j).mpr h)
        exact not_lt.mp this
      simp only [hless, Bool.and_false, if_false]
      refine ⟨rfl, List.Perm.refl _, ?_⟩
      intro p q hpq hq
      by_cases c1 : p = j + 1
      · subst c1
        exact h2 q hpq hq
      · by_cases c2 : q = j + 1
        · subst c2
          by_cases c3 : p = j
          · subst c3
            exact hge
          · exact le_trans (h1 p j (by omega) (by omega) c1 (by omega)) hge
        · exact h1 p q hpq hq c1 c2


/-- The outer loop of the insertion sort, started at `i` with the slice below `i` in
order, leaves the whole slice in order. -/
theorem insertionSortOuter_spec :
    ∀ (n i : Nat) (a : List ZeroTierNetworkMember), n = a.length - i →
      (∀ p q, p < q → q < i → nameAt a p ≤ nameAt a q) →
      (insertionSortOuter byName 0 a.length n i a).length = a.length ∧
      (insertionSortOuter byName 0 a.length n i a).Perm a ∧
      ∀ p q, p < q → q < a.length →
        nameAt (insertionSortOuter byName 0 a.length n i a) p ≤
          nameAt (insertionSortOuter byName 0 a.length n i a) q := by
  intro n
  induction n with
  | zero =>
    intro i a hn h
    have e : insertionSortOuter byName 0 a.length 0 i a = a := rfl
    rw [e]
    exact ⟨rfl, List.Perm.refl _, fun p q hpq hq => h p q hpq (by omega)⟩
  | succ n ih =>
    intro i a hn h
    have hi : i < a.length := by omega
    have e : insertionSortOuter byName 0 a.length (n + 1) i a =
        insertionSortOuter byName 0 a.length n (i + 1) (insertionSortInner byName 0 i a) := by
      simp only [insertionSortOuter, hi, if_true]
    rw [e]
    have hin := insertionSortInner_spec i a i hi (le_refl i)
      (fun p q hpq hq _ hqi => h p q hpq (by omega)) (fun q h1 h2 => by omega)
    have hrec := ih (i + 1) (insertionSortInner byName 0 i a) (by rw [hin.1]; omega)
      (fun p q hpq hq => hin.2.2 p q hpq (by omega))
    rw [hin.1] at hrec
    exact ⟨hrec.1, hrec.2.1.trans hin.2.1, hrec.2.2⟩

theorem shellPass_spec :
    ∀ (n i : Nat) (a : List ZeroTierNetworkMember),
      (shellPass byName a.length n i a).length = a.length ∧
      (shellPass byName a.length n i a).Perm a := by
  intro n
  induction n with
  | zero => intro i a; exact ⟨rfl, List.Perm.refl _⟩
  | succ n ih =>
    intro i a
    by_cases hi : i < a.length
    · by_cases hless : byName.Less a i (i - 6) = true
      · have e : shellPass byName a.length (n + 1) i a =
            shellPass byName a.length n (i + 1) (byName.Swap a i (i - 6)) := by
          simp only [shellPass, hi, hless, if_true]
        rw [e]
        have hlen := byName_Swap_length a i (i - 6)
        have hperm := byName_Swap_perm a i (i - 6) hi (by omega)
        have := ih (i + 1) (byName.Swap a i (i - 6))
        rw [hlen] at this
        exact ⟨this.1, this.2.trans hperm⟩
      · have e : shellPass byName a.length (n + 1) i a =
            shellPass byName a.length n (i + 1) a := by
          simp [shellPass, hi, hless]
        rw [e]
        exact ih (i + 1) a
    · have e : shellPass byName a.length (n + 1) i a = a := by
        simp only [shellPass, hi, if_false]
      rw [e]
      exact ⟨rfl, List.Perm.refl _⟩

theorem insertionSort_spec (a : List ZeroTierNetworkMember) :
    (insertionSort byName a 0 a.length).length = a.length ∧
    (insertionSort byName a 0 a.length).Perm a ∧
    ∀ p q, p < q → q < a.length →
      nameAt (insertionSort byName a 0 a.length) p ≤ nameAt (insertionSort byName a 0 a.length) q := by
  unfold insertionSort
  exact insertionSortOuter_spec (a.length - (0 + 1)) (0 + 1) a rfl (fun p q hpq hq => by omega)

theorem SortContract_of_spec (sortSort : SortFn)
    (h : ∀ a : List ZeroTierNetworkMember, (sortSort byName a).length = a.length ∧
      (sortSort byName a).Perm a ∧
      ∀ p q, p < q → q < a.length → nameAt (sortSort byName a) p ≤ nameAt (sortSort byName a) q) :
    SortContract sortSort := by
  intro a
  refine ⟨(h a).2.1, ?_⟩
  intro i j hij hj
  have hle := (h a).2.2 i j hij (by rw [← (h a).1]; exact hj)
  cases hl : byName.Less (sortSort byName a) j i with
  | false => rfl
  | true => exact absurd ((byName_Less_iff _ j i).mp hl) (not_lt.mpr hle)

/-- The insertion sort of the library meets the contract of `sort.Sort`. -/
theorem sortInsertion_contract : SortContract sortInsertion :=
  SortContract_of_spec sortInsertion (fun a => insertionSort_spec a)

/-- The sort of Go 1.6 to 1.18 on a short slice, the pass of Shell sort followed by the
insertion sort, meets the contract of `sort.Sort`. -/
theorem sortShort_contract : SortContract sortShort := by
  apply SortContract_of_spec
  intro a
  have e0 : sortShort byName a = quickSortShort byName a 0 a.length := rfl
  rw [e0]
  by_cases hb : a.length - 0 > 1
  · have e : quickSortShort byName a 0 a.length =
        insertionSort byName (shellPass byName a.length (a.length - (0 + 6)) (0 + 6) a) 0 a.length := by
      simp only [quickSortShort, hb, if_true]
    rw [e]
    have hs := shellPass_spec (a.length - (0 + 6)) (0 + 6) a
    have hi := insertionSort_spec (shellPass byName a.length (a.length - (0 + 6)) (0 + 6) a)
    rw [hs.1] at hi
    exact ⟨hi.1, hi.2.1.trans hs.2, hi.2.2⟩
  · have e : quickSortShort byName a 0 a.length = a := by
      simp only [quickSortShort, hb, if_false]
    rw [e]
    exact ⟨rfl, List.Perm.refl _, fun p q hpq hq => by omega⟩

/-! ## The composite resolution -/

theorem collectMemberIDs_eq :
    ∀ (allMembers : List JSONObject) (ids acc : List String),
      allMembers.map memberAddress = ids.map some →
      collectMemberIDs allMembers acc = some (acc ++ ids) := by
  intro allMembers
  induction allMembers with
  | nil =>
    intro ids acc h
    cases ids with
    | nil => simp [collectMemberIDs]
    | cons id ids => simp at h
  | cons v rest ih =>
    intro ids acc h
    cases ids with
    | nil => simp at h
    | cons id ids =>
      simp only [List.map_cons, List.cons.injEq] at h
      simp only [collectMemberIDs, h.1]
      rw [ih ids (acc ++ [id]) h.2]
      simp

theorem collectMemberIDs_none :
    ∀ (allMembers : List JSONObject) (acc : List String),
      (∃ v ∈ allMembers, memberAddress v = none) → collectMemberIDs allMembers acc = none := by
  intro allMembers
  induction allMembers with
  | nil => intro acc h; simp at h
  | cons v rest ih =>
    intro acc h
    simp only [collectMemberIDs]
    rcases hv : memberAddress v with _ | id
    · rfl
    · simp only
      apply ih
      rcases h with ⟨w, hw, hnone⟩
      rcases List.mem_cons.mp hw with h1 | h1
      · subst h1; rw [hv] at hnone; cases hnone
      · exact ⟨w, h1, hnone⟩

theorem memberLoop_eq (fuel : Nat) (client : ZeroTierClient) (networkID : String)
    (onlineOnly : Bool) :
    ∀ (ids : List String) (members : List ZeroTierNetworkMember),
      (∀ id ∈ ids, (GetMemberDetail fuel client networkID id).isSome = true) →
      memberLoop fuel client networkID onlineOnly ids members =
        some (members ++ ids.filterMap (keptMember fuel client networkID onlineOnly)) := by
  intro ids
  induction ids with
  | nil => intro members _; simp [memberLoop]
  | cons id rest ih =>
    intro members h
    have hrest : ∀ id ∈ rest, (GetMemberDetail fuel client networkID id).isSome = true :=
      fun x hx => h x (List.mem_cons_of_mem _ hx)
    have hid := h id (List.mem_cons_self _ _)
    rcases hg : GetMemberDetail fuel client networkID id with _ | ⟨member, err⟩
    · rw [hg] at hid; cases hid
    · simp only [memberLoop, hg, List.filterMap_cons, keptMember]
      by_cases hon : (onlineOnly && !member.Online) = true
      · cases err <;> simp [hon, ih _ hrest]
      · cases err with
        | some e => simp [hon, ih _ hrest]
        | none => simp [hon, ih _ hrest, json.MarshalIndent]

/-- When the fetches return, the resolution returns the kept members, sorted. -/
theorem GetNetworkMemberDetails_eq (sortSort : SortFn) (fuel : Nat) (client : ZeroTierClient)
    (network : ZeroTierNetwork) (onlineOnly : Bool) (ids : List String)
    (h : FetchesReturn fuel client network.ID ids) :
    GetNetworkMemberDetails sortSort fuel client network onlineOnly =
      some (.ok (sortSort byName (ids.filterMap (keptMember fuel client network.ID onlineOnly)))) := by
  rcases h with ⟨allMembers, hlist, hshape, hret⟩
  unfold GetNetworkMemberDetails
  simp only [hlist, collectMemberIDs_eq allMembers ids [] hshape, List.nil_append,
    memberLoop_eq fuel client network.ID onlineOnly ids [] hret]

/-- When the list of members does not arrive, the resolution returns the empty sequence. -/
theorem GetNetworkMemberDetails_list_error (sortSort : SortFn) (fuel : Nat)
    (client : ZeroTierClient) (network : ZeroTierNetwork) (onlineOnly : Bool)
    (allMembers : List JSONObject) (err : GoError)
    (h : GetNetworkMembers fuel client network.ID = some (allMembers, some err)) :
    GetNetworkMemberDetails sortSort fuel client network onlineOnly = some (.ok []) := by
  unfold GetNetworkMemberDetails
  simp only [h]

theorem SortContract.ascending {sortSort : SortFn} (hsort : SortContract sortSort)
    (a : List ZeroTierNetworkMember) : AscendingByName (sortSort byName a) := by
  unfold AscendingByName
  rw [List.pairwise_iff_get]
  intro i j hij
  have h := (hsort a).2 i.1 j.1 hij j.2
  intro hlt
  have : byName.Less (sortSort byName a) j.1 i.1 = true := by
    rw [byName_Less_iff]
    unfold nameAt
    rw [List.getD_eq_getElem _ _ j.2, List.getD_eq_getElem _ _ i.2]
    exact hlt
  rw [h] at this
  cases this

theorem keptMember_iff (fuel : Nat) (client : ZeroTierClient) (networkID : String)
    (onlineOnly : Bool) (id : String) (m : ZeroTierNetworkMember) :
    keptMember fuel client networkID onlineOnly id = some m ↔
      GetMemberDetail fuel client networkID id = some (m, none) ∧
        (onlineOnly = true → m.Online = true) := by
  unfold keptMember
  rcases hg : GetMemberDetail fuel client networkID id with _ | ⟨member, err⟩
  · simp
  · cases err with
    | some e => simp
    | none =>
      cases onlineOnly <;> cases hon : member.Online <;> simp [hon]
      · intro h; subst h; exact hon
      · intro h; subst h; simp [hon]

/-- C4, counterexample: bob is in the member list of the home network and his detail
says that he is online, but it arrives with status 203, so `GetMemberDetail` returns
it with an error; the resolution with `onlineOnly` returns zed alone, without bob. -/
theorem onlineOnly_excludes_online_member :
    GetNetworkMembers 2 homeClient netHome.ID =
        some (["a1b2c3d4e5", "0f1e2d3c4b", "9a8b7c6d5e"].map memberEntry, none) ∧
      GetMemberDetail 2 homeClient netHome.ID "9a8b7c6d5e" =
        some (memberBob,
          some (logger.Error (logger.Error (errors.New "203 Non-Authoritative Information")
            ["Request returned error "]) ["Network request failed"])) ∧
      memberBob.Online = true ∧
      GetNetworkMemberDetails sortShort 2 homeClient netHome true = some (.ok [memberZed]) ∧
      memberBob ∉ [memberZed] :=
  ⟨rfl, rfl, rfl, rfl, by decide⟩

/-- C4, as amended: when the fetches of the resolution return, the result with
`onlineOnly` holds no member that is offline, and holds exactly the members that are
online and whose detail was fetched without error. -/
theorem onlineOnly_keeps_online_members_fetched_without_error (sortSort : SortFn)
    (hsort : SortContract sortSort) (fuel : Nat) (client : ZeroTierClient)
    (network : ZeroTierNetwork) (ids : List String)
    (hret : FetchesReturn fuel client network.ID ids) :
    ∃ result, GetNetworkMemberDetails sortSort fuel client network true = some (.ok result) ∧
      (∀ m ∈ result, m.Online = true) ∧
      (∀ m, m ∈ result ↔
        ∃ id ∈ ids, GetMemberDetail fuel client network.ID id = some (m, none) ∧ m.Online = true) := by
  refine ⟨_, GetNetworkMemberDetails_eq sortSort fuel client network true ids hret, ?_, ?_⟩
  · intro m hm
    have hm1 := ((hsort _).1.mem_iff).mp hm
    rcases List.mem_filterMap.mp hm1 with ⟨id, _, hk⟩
    exact ((keptMember_iff fuel client network.ID true id m).mp hk).2 rfl
  · intro m
    rw [(hsort _).1.mem_iff, List.mem_filterMap]
    constructor
    · rintro ⟨id, hid, hk⟩
      have := (keptMember_iff fuel client network.ID true id m).mp hk
      exact ⟨id, hid, this.1, this.2 rfl⟩
    · rintro ⟨id, hid, hg, hon⟩
      exact ⟨id, hid, (keptMember_iff fuel client network.ID true id m).mpr ⟨hg, fun _ => hon⟩⟩

theorem homeClient_fetches_return :
    FetchesReturn 2 homeClient netHome.ID ["a1b2c3d4e5", "0f1e2d3c4b", "9a8b7c6d5e"] := by
  refine ⟨["a1b2c3d4e5", "0f1e2d3c4b", "9a8b7c6d5e"].map memberEntry, rfl, rfl, ?_⟩
  intro id hid
  simp only [List.mem_cons, List.mem_singleton, List.not_mem_nil, or_false] at hid
  rcases hid with h | h | h <;> subst h <;> rfl

/-- C4, witness: the home network, sorted as Go 1.18 does. -/
theorem onlineOnly_keeps_online_members_fetched_without_error_witness :
    ∃ result, GetNetworkMemberDetails sortShort 2 homeClient netHome true = some (.ok result) ∧
      (∀ m ∈ result, m.Online = true) ∧
      (∀ m, m ∈ result ↔
        ∃ id ∈ ["a1b2c3d4e5", "0f1e2d3c4b", "9a8b7c6d5e"],
          GetMemberDetail 2 homeClient netHome.ID id = some (m, none) ∧ m.Online = true) :=
  onlineOnly_keeps_online_members_fetched_without_error sortShort sortShort_contract 2 homeClient
    netHome ["a1b2c3d4e5", "0f1e2d3c4b", "9a8b7c6d5e"] homeClient_fetches_return

/-- C9, counterexample: the list of members of the home network arrives without error,
its one entry has no `config` field, and the resolution panics at the type assertion. -/
theorem memberDetails_panics_without_address :
    GetNetworkMembers 2 shapelessClient netHome.ID =
        some ([[("nodeId", JSON.string "a1b2c3d4e5")]], none) ∧
      GetNetworkMemberDetails sortShort 2 shapelessClient netHome false =
        some (.error "interface conversion") :=
  ⟨rfl, rfl⟩

/-- C9, as amended: when the list of members does not arrive, the resolution returns the
empty sequence; when it arrives, each entry carries `config.address` and the fetches
return, the resolution without `onlineOnly` returns, up to the order, exactly the
members whose detail was fetched without error. -/
theorem memberDetails_keeps_members_fetched_without_error (sortSort : SortFn)
    (hsort : SortContract sortSort) (fuel : Nat) (client : ZeroTierClient)
    (network : ZeroTierNetwork) :
    (∀ allMembers err, GetNetworkMembers fuel client network.ID = some (allMembers, some err) →
      GetNetworkMemberDetails sortSort fuel client network false = some (.ok [])) ∧
    (∀ ids, FetchesReturn fuel client network.ID ids →
      ∃ result, GetNetworkMemberDetails sortSort fuel client network false = some (.ok result) ∧
        result.Perm (ids.filterMap (fun id =>
          match GetMemberDetail fuel client network.ID id with
          | some (member, none) => some member
          | _ => none))) := by
  constructor
  · intro allMembers err h
    exact GetNetworkMemberDetails_list_error sortSort fuel client network false allMembers err h
  · intro ids hret
    refine ⟨_, GetNetworkMemberDetails_eq sortSort fuel client network false ids hret, ?_⟩
    have hk : keptMember fuel client network.ID false = (fun id =>
        match GetMemberDetail fuel client network.ID id with
        | some (member, none) => some member
        | _ => none) := by
      funext id
      unfold keptMember
      rcases GetMemberDetail fuel client network.ID id with _ | ⟨member, err⟩
      · rfl
      · cases err <;> simp
    rw [← hk]
    exact (hsort _).1

/-- C9, witness: the home network, where the detail of bob arrives with an error, and
the same service with the list of members refused. -/
theorem memberDetails_keeps_members_fetched_without_error_witness :
    GetNetworkMemberDetails sortShort 2 refusedClient netHome false = some (.ok []) ∧
    ∃ result, GetNetworkMemberDetails sortShort 2 homeClient netHome false = some (.ok result) ∧
      result.Perm [memberZed, memberAmy] :=
  ⟨(memberDetails_keeps_members_fetched_without_error sortShort sortShort_contract 2
      refusedClient netHome).1 [] _ rfl,
   (memberDetails_keeps_members_fetched_without_error sortShort sortShort_contract 2
      homeClient netHome).2 _ homeClient_fetches_return⟩

/-- Whatever sequence the resolution returns is in ascending order of `Name`. -/
theorem GetNetworkMemberDetails_ascending (sortSort : SortFn) (hsort : SortContract sortSort)
    (fuel : Nat) (client : ZeroTierClient) (network : ZeroTierNetwork) (onlineOnly : Bool)
    (result : List ZeroTierNetworkMember)
    (h : GetNetworkMemberDetails sortSort fuel client network onlineOnly = some (.ok result)) :
    AscendingByName result := by
  unfold GetNetworkMemberDetails at h
  rcases hl : GetNetworkMembers fuel client network.ID with _ | ⟨allMembers, err⟩
  · simp [hl] at h
  · cases err with
    | some e =>
      simp only [hl, Option.some.injEq, Except.ok.injEq] at h
      rw [← h]
      exact List.Pairwise.nil
    | none =>
      simp only [hl] at h
      rcases hc : collectMemberIDs allMembers [] with _ | memberIDs
      · simp [hc] at h
      · simp only [hc] at h
        rcases hm : memberLoop fuel client network.ID onlineOnly memberIDs [] with _ | members
        · simp [hm] at h
        · simp only [hm, Option.some.injEq, Except.ok.injEq] at h
          rw [← h]
          exact hsort.ascending members

/-- C5, counterexample: seven members are fetched in the order m1 to m7, where m1 and m2
share the name `nas`. The sort of Go 1.18, which meets the contract of `sort.Sort`,
returns them in ascending order of name with m2 before m1: the pass of Shell sort swaps
m7 with m1 across m2. -/
theorem memberDetails_sort_not_stable :
    SortContract sortShort ∧
      ["m1", "m2", "m3", "m4", "m5", "m6", "m7"].filterMap
          (keptMember 2 sevenClient netHome.ID false) =
        [homeMember "nas" "m1" true, homeMember "nas" "m2" true, homeMember "tv" "m3" true,
         homeMember "tv" "m4" true, homeMember "tv" "m5" true, homeMember "tv" "m6" true,
         homeMember "laptop" "m7" true] ∧
      GetNetworkMemberDetails sortShort 2 sevenClient netHome false =
        some (.ok
          [homeMember "laptop" "m7" true, homeMember "nas" "m2" true, homeMember "nas" "m1" true,
           homeMember "tv" "m3" true, homeMember "tv" "m4" true, homeMember "tv" "m5" true,
           homeMember "tv" "m6" true]) ∧
      [homeMember "nas" "m2" true, homeMember "nas" "m1" true] ≠
        [homeMember "nas" "m1" true, homeMember "nas" "m2" true] :=
  ⟨sortShort_contract, rfl, rfl, by decide⟩

/-- C5, as amended: the sequence that the resolution returns is in ascending order of
`Name`, and when the fetches return it is a rearrangement of the members kept, in the
order that `sort.Sort` gives them; the order among equal names is not promised. -/
theorem memberDetails_ascending_by_name (sortSort : SortFn) (hsort : SortContract sortSort)
    (fuel : Nat) (client : ZeroTierClient) (network : ZeroTierNetwork) (onlineOnly : Bool) :
    (∀ result, GetNetworkMemberDetails sortSort fuel client network onlineOnly = some (.ok result) →
      AscendingByName result) ∧
    (∀ ids, FetchesReturn fuel client network.ID ids →
      ∃ result, GetNetworkMemberDetails sortSort fuel client network onlineOnly = some (.ok result) ∧
        AscendingByName result ∧
        result.Perm (ids.filterMap (keptMember fuel client network.ID onlineOnly))) := by
  constructor
  · intro result h
    exact GetNetworkMemberDetails_ascending sortSort hsort fuel client network onlineOnly result h
  · intro ids hret
    exact ⟨_, GetNetworkMemberDetails_eq sortSort fuel client network onlineOnly ids hret,
      hsort.ascending _, (hsort _).1⟩

/-- C5, witness: the seven members, sorted as Go 1.18 does. -/
theorem memberDetails_ascending_by_name_witness :
    AscendingByName
        [homeMember "laptop" "m7" true, homeMember "nas" "m2" true, homeMember "nas" "m1" true,
         homeMember "tv" "m3" true, homeMember "tv" "m4" true, homeMember "tv" "m5" true,
         homeMember "tv" "m6" true] :=
  (memberDetails_ascending_by_name sortShort sortShort_contract 2 sevenClient netHome false).1 _ rfl

/-! ## The entry point -/

/-- The last loop of `main` prints one block for each name, in the order of the names,
when the details of each name arrive and the resolution of its members returns. -/
theorem inspectLoop_blocks (sortSort : SortFn) (hsort : SortContract sortSort) (fuel : Nat)
    (client : ZeroTierClient) (onlineOnly : Bool) :
    ∀ (names : List String) (out : List Line),
      (∀ arg ∈ names, ∃ network members,
        GetNetworkDetails fuel client arg = some (network, none) ∧
        GetNetworkMemberDetails sortSort fuel client network onlineOnly = some (.ok members)) →
      ∃ blocks : List (String × ZeroTierNetwork × List ZeroTierNetworkMember),
        blocks.map (fun b => b.1) = names ∧
        (∀ b ∈ blocks, GetNetworkDetails fuel client b.1 = some (b.2.1, none) ∧
          GetNetworkMemberDetails sortSort fuel client b.2.1 onlineOnly = some (.ok b.2.2) ∧
          AscendingByName b.2.2) ∧
        inspectLoop sortSort fuel client onlineOnly names out =
          some (out ++ blocks.flatMap (fun b => networkBlock b.2.1 b.2.2), Exit.returned) := by
  intro names
  induction names with
  | nil =>
    intro out _
    exact ⟨[], rfl, by simp, by simp [inspectLoop]⟩
  | cons arg rest ih =>
    intro out h
    rcases h arg (List.mem_cons_self _ _) with ⟨network, members, hd, hm⟩
    rcases ih (out ++ [Line.text network.SummaryString] ++ memberLines members ++ [Line.text ""])
      (fun a ha => h a (List.mem_cons_of_mem _ ha)) with ⟨blocks, hnames, hblocks, hloop⟩
    refine ⟨(arg, network, members) :: blocks, by simp [hnames], ?_, ?_⟩
    · intro b hb
      rcases List.mem_cons.mp hb with h1 | h1
      · subst h1
        exact ⟨hd, hm,
          GetNetworkMemberDetails_ascending sortSort hsort fuel client network onlineOnly members hm⟩
      · exact hblocks b h1
    · simp only [inspectLoop, hd, hm]
      rw [hloop]
      simp [networkBlock, List.flatMap_cons]

/-- C7, counterexample: the service lists the home network, then the office network.
With the keys of `id_index` ranged over from the last to the first, which the language
allows, `main` inspects the office network first. -/
theorem main_inspects_in_map_order :
    (∃ networks store out,
      ListNetworks LoopVar.perLoop 2 homeClient false = some (networks, store, out, none) ∧
      networks.networks = [netHome, netOffice]) ∧
    networkNames LoopVar.perLoop List.reverse 2 homeClient [] =
      some (.ok ["1d71939404912b40", "8056c2e21c000001"]) ∧
    main LoopVar.perLoop sortShort List.reverse 2 homeClient ⟨"token", false, []⟩ ReadFile.notExist =
      some ([Line.text "1d71939404912b40 office office network",
             Line.text "",
             Line.text "8056c2e21c000001 home home network",
             Line.text "     \tamy                       0f1e2d3c4b [10.147.17.20]\t Offline",
             Line.text "     \tzed                       a1b2c3d4e5 [10.147.17.20]\t",
             Line.text ""], Exit.returned) ∧
    ["1d71939404912b40", "8056c2e21c000001"] ≠ [netHome.ID, netOffice.ID] :=
  ⟨⟨_, _, _, rfl, rfl⟩, rfl, rfl, by decide⟩

/-- C7, as amended: when `main` runs with a token and no positional argument,
`ListNetworks` returns a list with pairwise distinct identifiers, and the details and
the members of each network of the list arrive, the networks are inspected once each, in
the order in which the run time ranges over the keys of `id_index` (some rearrangement
of the list of the service), and for each the summary of the network is printed,
followed by the summaries of its members in ascending order of name and an empty line. -/
theorem main_inspects_each_network_once (loopvar : LoopVar) (sortSort : SortFn)
    (mapRange : List String → List String) (hsort : SortContract sortSort)
    (hrange : ∀ keys, (mapRange keys).Perm keys) (fuel : Nat) (client : ZeroTierClient)
    (flags : Flags) (tokenFile : ReadFile) (networks : ZeroTierNetworkList) (store : Store)
    (out : List String)
    (htoken : flags.apiToken.length ≠ 0 ∨
      ∃ buf, tokenFile = ReadFile.contents buf ∧ (strings.TrimSpace buf).length ≠ 0)
    (hargs : flags.args = [])
    (hlist : ListNetworks loopvar fuel client false = some (networks, store, out, none))
    (hnodup : (networks.networks.map (fun n => n.ID)).Nodup)
    (hinspect : ∀ n ∈ networks.networks, ∃ network members,
      GetNetworkDetails fuel client n.ID = some (network, none) ∧
      GetNetworkMemberDetails sortSort fuel client network flags.onlineOnly = some (.ok members)) :
    ∃ blocks : List (String × ZeroTierNetwork × List ZeroTierNetworkMember),
      (blocks.map (fun b => b.1)).Perm (networks.networks.map (fun n => n.ID)) ∧
      blocks.map (fun b => b.1) = mapRange (networks.networks.map (fun n => n.ID)) ∧
      (∀ b ∈ blocks, GetNetworkDetails fuel client b.1 = some (b.2.1, none) ∧
        GetNetworkMemberDetails sortSort fuel client b.2.1 flags.onlineOnly = some (.ok b.2.2) ∧
        AscendingByName b.2.2) ∧
      main loopvar sortSort mapRange fuel client flags tokenFile =
        some (blocks.flatMap (fun b => networkBlock b.2.1 b.2.2), Exit.returned) := by
  have hkeys := (ListNetworks_index_keys loopvar fuel client false networks store out hlist).1 hnodup
  have hnames : networkNames loopvar mapRange fuel client flags.args =
      some (.ok (mapRange (networks.networks.map (fun n => n.ID)))) := by
    simp [networkNames, hargs, hlist, hkeys]
  have hall : ∀ arg ∈ mapRange (networks.networks.map (fun n => n.ID)), ∃ network members,
      GetNetworkDetails fuel client arg = some (network, none) ∧
      GetNetworkMemberDetails sortSort fuel client network flags.onlineOnly =
        some (.ok members) := by
    intro arg harg
    have := ((hrange _).mem_iff).mp harg
    rcases List.mem_map.mp this with ⟨n, hn, hid⟩
    rw [← hid]
    exact hinspect n hn
  rcases inspectLoop_blocks sortSort hsort fuel client flags.onlineOnly _ [] hall with
    ⟨blocks, hb1, hb2, hb3⟩
  refine ⟨blocks, ?_, hb1, hb2, ?_⟩
  · rw [hb1]
    exact hrange _
  · have hmain : main loopvar sortSort mapRange fuel client flags tokenFile =
        inspectLoop sortSort fuel client flags.onlineOnly
          (mapRange (networks.networks.map (fun n => n.ID))) [] := by
      unfold main
      by_cases h0 : flags.apiToken.length = 0
      · rcases htoken with h | ⟨buf, hbuf, hlen⟩
        · exact absurd h0 h
        · simp [h0, hbuf, hlen, hnames]
      · simp [h0, hnames]
    rw [hmain, hb3]
    simp

/-- C7, witness: the home service, with the keys ranged over from the last to the first. -/
theorem main_inspects_each_network_once_witness :
    ∃ blocks : List (String × ZeroTierNetwork × List ZeroTierNetworkMember),
      (blocks.map (fun b => b.1)).Perm ["8056c2e21c000001", "1d71939404912b40"] ∧
      blocks.map (fun b => b.1) = ["1d71939404912b40", "8056c2e21c000001"] ∧
      (∀ b ∈ blocks, GetNetworkDetails 2 homeClient b.1 = some (b.2.1, none) ∧
        GetNetworkMemberDetails sortShort 2 homeClient b.2.1 false = some (.ok b.2.2) ∧
        AscendingByName b.2.2) ∧
      main LoopVar.perLoop sortShort List.reverse 2 homeClient ⟨"token", false, []⟩
          ReadFile.notExist =
        some (blocks.flatMap (fun b => networkBlock b.2.1 b.2.2), Exit.returned) :=
  main_inspects_each_network_once LoopVar.perLoop sortShort List.reverse sortShort_contract
    (fun keys => List.reverse_perm keys) 2 homeClient ⟨"token", false, []⟩ ReadFile.notExist
    _ _ _ (Or.inl (by decide)) rfl
    (show ListNetworks LoopVar.perLoop 2 homeClient false = some (_, _, _, none) from rfl)
    (by decide)
    (by
      intro n hn
      simp only [List.mem_cons, List.mem_singleton, List.not_mem_nil, or_false] at hn
      rcases hn with h | h <;> subst h
      · exact ⟨netHome, _, rfl, rfl⟩
      · exact ⟨netOffice, _, rfl, rfl⟩)

end Gozer
